import Mathlib

/-!
# CalKiller: the slot calculator and the booking store of `server.js`

A shallow embedding of `getAvailableSlots`, of the duration expression of
`GET /api/slots`, and of the handlers `POST /api/book`, `GET /api/bookings` and
`DELETE /api/bookings/:id`.

Conventions of the embedding.

* A JavaScript `Date` is its time value: `some t` with `t` in milliseconds since the
  epoch, or `none` for an Invalid Date (time value NaN). `new Date(v)` clips to
  plus or minus 8.64e15 ms (`timeClip`). Every relational operator on dates is false
  as soon as one side is invalid.
* Minutes and milliseconds are integers. The durations reaching the code are integer
  valued (`parseInt`, or the configured number), and on integers below 2^53 the
  double arithmetic of the runtime is exact; anything larger leaves the range of
  `timeClip`.
* Local time follows ECMA-262: `LocalTime(t) = t + LocalTZA(t, true)` and
  `UTC(t) = t - LocalTZA(t, false)`, with `LocalTZA` supplied by the host, so that a
  zone with daylight saving transitions is a host like any other. `setHours` and
  `setDate` follow `MakeTime`, `MakeDay`, `MakeDate`, `UTC`, `TimeClip`.
* What the runtime supplies is collected in `Host`: the zone offsets, `Number` on
  the pieces of an `"HH:MM"` string, `new Date(v)` on a stored value, and the
  successive readings of the wall clock.
* ISO strings produced by `toISOString` are represented by the time value they
  denote.
* The two files are passed explicitly: `Config` for `config.json`, a list of
  `Booking` for `bookings.json`.
* A `while` loop takes a fuel argument and answers `none` when the fuel is used up
  before the loop condition turns false.
-/

namespace CalKiller

/-! ## Dates -/

/-- The time value of a JavaScript Date, `none` for an Invalid Date. -/
abbrev JSDate := Option Int

/-- The largest time value a Date can hold, in milliseconds. -/
def maxTime : Int := 8640000000000000

def msPerMinute : Int := 60000

def msPerHour : Int := 3600000

def msPerDay : Int := 86400000

/-- ECMA-262 `TimeClip`: a time value outside the representable range is NaN. -/
def timeClip (t : Int) : JSDate :=
  if -maxTime ≤ t ∧ t ≤ maxTime then some t else none

/-- The expression `new Date(d.getTime() + ms)`. -/
def plusMs (d : JSDate) (ms : Int) : JSDate :=
  d.bind fun t => timeClip (t + ms)

/-- The comparison `a < b` of two Date objects. -/
def dateLt (a b : JSDate) : Bool :=
  match a, b with
  | some x, some y => decide (x < y)
  | _, _ => false

/-- The comparison `a <= b` of two Date objects. -/
def dateLe (a b : JSDate) : Bool :=
  match a, b with
  | some x, some y => decide (x ≤ y)
  | _, _ => false

/-- ECMA-262 `Day(t)`: the day number of a (local) time value. -/
def day (t : Int) : Int := t / msPerDay

/-- ECMA-262 `WeekDay(t)`: 0 is Sunday, 6 is Saturday. -/
def weekDay (t : Int) : Int := (day t + 4) % 7

/-! ## Values, bookings, configuration -/

/-- A value as it arrives in a JSON body or sits in `bookings.json`; `undefined`
stands for an absent key. An array or object is kept as its JSON text. Numbers are
the integers; what is modelled of a number is whether it is zero and the date it
denotes. -/
inductive JSValue where
  | undefined
  | null
  | bool (b : Bool)
  | number (n : Int)
  | string (s : String)
  | object (json : String)
  deriving DecidableEq, Repr

/-- JavaScript truthiness, as tested by `!v`. -/
def JSValue.truthy : JSValue → Bool
  | .undefined => false
  | .null => false
  | .bool b => b
  | .number n => n != 0
  | .string s => s != ""
  | .object _ => true

/-- A record of `bookings.json`. -/
structure Booking where
  id : JSValue
  name : JSValue
  email : JSValue
  startTime : JSValue
  endTime : JSValue
  meetingType : JSValue
  notes : JSValue
  createdAt : JSValue
  deriving DecidableEq, Repr

/-- An element of the array returned by `getAvailableSlots`; both fields are the
time values of the ISO strings. -/
structure Slot where
  start : Int
  end_ : Int
  deriving DecidableEq, Repr

/-- A non-null entry of `config.availability`. -/
structure DayAvailability where
  start : String
  end_ : String
  deriving DecidableEq, Repr

/-- The object `config.availability`; `none` is a null or absent key. -/
structure Availability where
  sunday : Option DayAvailability
  monday : Option DayAvailability
  tuesday : Option DayAvailability
  wednesday : Option DayAvailability
  thursday : Option DayAvailability
  friday : Option DayAvailability
  saturday : Option DayAvailability
  deriving DecidableEq, Repr

/-- The fields of the configuration the slot calculator reads. -/
structure Config where
  meetingDuration : Int
  bufferTime : Int
  availability : Availability
  deriving DecidableEq, Repr

/-- The availability, duration and buffer of `DEFAULT_CONFIG`. -/
def DEFAULT_CONFIG : Config where
  meetingDuration := 30
  bufferTime := 15
  availability :=
    { sunday := none
      monday := some ⟨"09:00", "17:00"⟩
      tuesday := some ⟨"09:00", "17:00"⟩
      wednesday := some ⟨"09:00", "17:00"⟩
      thursday := some ⟨"09:00", "17:00"⟩
      friday := some ⟨"09:00", "17:00"⟩
      saturday := none }

/-- The lookup `config.availability[dayName]`, where `dayName` is the lower-cased
English name of week day number `w` (0 is Sunday). -/
def Availability.entry (a : Availability) (w : Int) : Option DayAvailability :=
  if w = 0 then a.sunday
  else if w = 1 then a.monday
  else if w = 2 then a.tuesday
  else if w = 3 then a.wednesday
  else if w = 4 then a.thursday
  else if w = 5 then a.friday
  else if w = 6 then a.saturday
  else none

/-- What the runtime supplies to one call. -/
structure Host where
  /-- ECMA-262 `LocalTZA(t, isUTC)`, the offset of local time from UTC in
  milliseconds: with `true` the offset in force at the instant `t`, with `false` the
  offset the zone gives to the local time value `t`. -/
  localTZA : Int → Bool → Int
  /-- The integer `setHours` sees for `Number(s)`; `none` when it is NaN or infinite. -/
  toNumber : String → Option Int
  /-- The date `new Date(v)` for a stored value. -/
  newDate : JSValue → JSDate
  /-- The successive results of `new Date()` during the call, counted from 0. -/
  clock : Nat → Int

/-! ## Local time -/

/-- ECMA-262 `LocalTime(t)`. -/
def localTime (host : Host) (t : Int) : Int :=
  t + host.localTZA t true

/-- ECMA-262 `UTC(t)`: the instant of a local time value. -/
def utc (host : Host) (t : Int) : Int :=
  t - host.localTZA t false

/-- The call `d.setHours(hour, min, 0, 0)`: the local day of `d` is kept, the time
within the day is replaced, the result is taken back to UTC and clipped. A NaN
argument gives an Invalid Date. -/
def setHours (host : Host) (d : JSDate) (hour min : Option Int) : JSDate :=
  match d, hour, min with
  | some t, some h, some m =>
      timeClip (utc host (day (localTime host t) * msPerDay + (h * msPerHour + m * msPerMinute)))
  | _, _, _ => none

/-- The statement `current.setDate(current.getDate() + 1)`: in local time `MakeDay`
with the day of the month plus one is the next day number and the time within the
day is kept; the result is taken back to UTC and clipped. -/
def setDateNext (host : Host) (current : JSDate) : JSDate :=
  match current with
  | some t => timeClip (utc host (localTime host t + msPerDay))
  | none => none

/-! ## The slot calculator -/

/-- The pieces of `s.split(':')` as character lists; `cur` holds the piece being
read, reversed. -/
def splitColon : List Char → List Char → List String
  | [], cur => [String.mk cur.reverse]
  | c :: cs, cur =>
      if c = ':' then String.mk cur.reverse :: splitColon cs [] else splitColon cs (c :: cur)

/-- The destructuring `[hour, min] = s.split(':').map(Number)`; a second piece that
does not exist is `undefined`, which `setHours` turns into NaN. -/
def hourMin (host : Host) (s : String) : Option Int × Option Int :=
  let pieces := splitColon s.data []
  (pieces.head?.bind host.toNumber, (pieces.get? 1).bind host.toNumber)

/-- The callback of `bookings.some` together with the `some`. -/
def isBooked (host : Host) (bookings : List Booking) (slotStart slotEnd : JSDate) : Bool :=
  bookings.any fun b =>
    let bs := host.newDate b.startTime
    let be := host.newDate b.endTime
    dateLt slotStart be && dateLt bs slotEnd

/-- The statement `slots.push(...)` of line 90, with `start: slotStart.toISOString()`
and `end: slotEnd.toISOString()`. Where it is called both dates are valid; on an
Invalid Date `toISOString` throws. -/
def push (slots : List Slot) (slotStart slotEnd : JSDate) : List Slot :=
  match slotStart, slotEnd with
  | some s, some e => slots ++ [⟨s, e⟩]
  | _, _ => slots

/-- The state the loops thread: the array `slots` and the number of clock readings
taken so far. -/
abbrev Acc := List Slot × Nat

/-- Lines 83 to 92: one candidate is tested and possibly pushed. The clock is read
only when the candidate fits the day and is not booked. -/
def testCandidate (host : Host) (bookings : List Booking) (duration : Int)
    (dayEnd slotStart : JSDate) (acc : Acc) : Acc :=
  let slotEnd := plusMs slotStart (duration * 60000)
  if dateLe slotEnd dayEnd then
    if !isBooked host bookings slotStart slotEnd then
      if dateLt (some (host.clock acc.2)) slotStart then
        (push acc.1 slotStart slotEnd, acc.2 + 1)
      else (acc.1, acc.2 + 1)
    else acc
  else acc

/-- The inner loop `while (slotStart < dayEnd)` of lines 82 to 94. -/
def slotLoop (host : Host) (config : Config) (bookings : List Booking) (duration : Int)
    (dayEnd : JSDate) : Nat → JSDate → Acc → Option Acc
  | fuel, slotStart, acc =>
    if dateLt slotStart dayEnd then
      match fuel with
      | 0 => none
      | fuel + 1 =>
        slotLoop host config bookings duration dayEnd fuel
          (plusMs slotStart ((duration + config.bufferTime) * 60000))
          (testCandidate host bookings duration dayEnd slotStart acc)
    else some acc

/-- Lines 69 to 95: the body of the outer loop for the day of `current`, up to the
advance of `current`. Inside the loop `current` is a valid date; the week day is the
one of its local time. -/
def daySlots (host : Host) (config : Config) (bookings : List Booking) (duration : Int)
    (fuel : Nat) (current : JSDate) (acc : Acc) : Option Acc :=
  match current with
  | none => some acc
  | some t =>
    match config.availability.entry (weekDay (localTime host t)) with
    | none => some acc
    | some dayAvailability =>
      let (startHour, startMin) := hourMin host dayAvailability.start
      let (endHour, endMin) := hourMin host dayAvailability.end_
      let dayStart := setHours host current startHour startMin
      let dayEnd := setHours host current endHour endMin
      slotLoop host config bookings duration dayEnd fuel dayStart acc

/-- The outer loop `while (current < endDate)` of lines 68 to 97. -/
def dayLoop (host : Host) (config : Config) (bookings : List Booking) (duration : Int)
    (endDate : JSDate) (innerFuel : Nat) : Nat → JSDate → Acc → Option Acc
  | fuel, current, acc =>
    if dateLt current endDate then
      match fuel with
      | 0 => none
      | fuel + 1 =>
        match daySlots host config bookings duration innerFuel current acc with
        | none => none
        | some acc1 =>
          dayLoop host config bookings duration endDate innerFuel fuel (setDateNext host current)
            acc1
    else some acc

/-- The function `getAvailableSlots` with the count of clock readings kept. -/
def getAvailableSlotsAux (host : Host) (config : Config) (bookings : List Booking)
    (fuel : Nat) (startDate endDate : JSDate) (duration : Int) : Option Acc :=
  dayLoop host config bookings duration endDate fuel fuel startDate ([], 0)

/-- The function `getAvailableSlots(startDate, endDate, duration)`; `config` and
`bookings` are what `loadConfig()` and `loadBookings()` return. -/
def getAvailableSlots (host : Host) (config : Config) (bookings : List Booking)
    (fuel : Nat) (startDate endDate : JSDate) (duration : Int) : Option (List Slot) :=
  (getAvailableSlotsAux host config bookings fuel startDate endDate duration).map Prod.fst

/-- The argument `parseInt(duration) || config.meetingDuration` of `GET /api/slots`;
`parsed` is the result of `parseInt`, `none` for NaN. Zero is falsy. -/
def requestedDuration (parsed : Option Int) (config : Config) : Int :=
  match parsed with
  | some n => if n ≠ 0 then n else config.meetingDuration
  | none => config.meetingDuration

/-! ## The booking store and its three handlers -/

/-- The body of `POST /api/book` after destructuring; an absent key is `undefined`. -/
structure BookRequest where
  name : JSValue
  email : JSValue
  startTime : JSValue
  endTime : JSValue
  meetingType : JSValue
  notes : JSValue
  deriving DecidableEq, Repr

/-- What a handler sends: a status with an `error` message, or one of the three
successful payloads. -/
inductive Response where
  | error (status : Nat) (message : String)
  | booked (booking : Booking)
  | cancelled (cancelled : Option Booking)
  | list (bookings : List Booking)
  deriving DecidableEq, Repr

/-- The digit of value `d` below 36, in the lower-case alphabet of `toString(36)`. -/
def digit36 (d : Nat) : Char :=
  if d < 10 then Char.ofNat (48 + d) else Char.ofNat (87 + d)

/-- The base 36 digits of `n` in front of `acc`, most significant first. -/
def digits36 : Nat → Nat → List Char → List Char
  | 0, _, acc => acc
  | fuel + 1, n, acc =>
      if n < 36 then digit36 n :: acc else digits36 fuel (n / 36) (digit36 (n % 36) :: acc)

/-- The call `n.toString(36)` on an integer. -/
def toString36 (n : Int) : String :=
  if n < 0 then String.mk ('-' :: digits36 (n.natAbs + 1) n.natAbs [])
  else String.mk (digits36 (n.natAbs + 1) n.natAbs [])

/-- The call `s.substr(start, length)` for non-negative arguments. -/
def substr (s : String) (start length : Nat) : String :=
  String.mk ((s.data.drop start).take length)

/-- Line 127: `Date.now().toString(36) + Math.random().toString(36).substr(2, 5)`;
`now` is the result of `Date.now()`, `random36` that of `Math.random().toString(36)`. -/
def newId (now : Int) (random36 : String) : String :=
  toString36 now ++ substr random36 2 5

/-- The handler of `POST /api/book` on the store `store`; it answers the response
and the store it leaves. `createdAt` is the result of `new Date().toISOString()`. -/
def apiBook (store : List Booking) (body : BookRequest) (now : Int) (random36 : String)
    (createdAt : String) : Response × List Booking :=
  if !body.name.truthy || !body.email.truthy || !body.startTime.truthy
      || !body.endTime.truthy then
    (.error 400 "Missing required fields", store)
  else
    let booking : Booking :=
      { id := .string (newId now random36)
        name := body.name
        email := body.email
        startTime := body.startTime
        endTime := body.endTime
        meetingType := body.meetingType
        notes := body.notes
        createdAt := .string createdAt }
    (.booked booking, store ++ [booking])

/-- The handler of `GET /api/bookings`. -/
def apiBookings (store : List Booking) : Response :=
  .list store

/-- The method `Array.prototype.findIndex`; `none` stands for -1. -/
def findIndex (p : Booking → Bool) : List Booking → Option Nat
  | [] => none
  | b :: bs => if p b then some 0 else (findIndex p bs).map (· + 1)

/-- The handler of `DELETE /api/bookings/:id`; `id` is `req.params.id`, a string. -/
def apiCancel (store : List Booking) (id : String) : Response × List Booking :=
  match findIndex (fun b => decide (b.id = .string id)) store with
  | none => (.error 404 "Not found", store)
  | some index => (.cancelled (store.get? index), store.eraseIdx index)

/-- The body has a falsy required field: the test of line 122. -/
def BookRequest.incomplete (body : BookRequest) : Bool :=
  !body.name.truthy || !body.email.truthy || !body.startTime.truthy || !body.endTime.truthy

/-- The record `POST /api/book` builds from a body (lines 126 to 130). -/
def bookingOf (body : BookRequest) (now : Int) (random36 : String) (createdAt : String) :
    Booking :=
  { id := .string (newId now random36)
    name := body.name
    email := body.email
    startTime := body.startTime
    endTime := body.endTime
    meetingType := body.meetingType
    notes := body.notes
    createdAt := .string createdAt }

/-- A body whose `name` is the empty string and whose other fields are filled in. -/
def emptyNameBody : BookRequest :=
  { name := .string ""
    email := .string "ann@example.com"
    startTime := .string "2024-01-01T09:00:00.000Z"
    endTime := .string "2024-01-01T09:30:00.000Z"
    meetingType := .undefined
    notes := .undefined }


/-- A complete body, submitted for the round trip. -/
def bobBody : BookRequest :=
  { name := .string "Bob"
    email := .string "bob@example.com"
    startTime := .string "2024-01-02T09:00:00.000Z"
    endTime := .string "2024-01-02T09:30:00.000Z"
    meetingType := .string "intro"
    notes := .undefined }

/-- A store whose one record already carries the id that
`newId 1704067200000 "0.4fzyo82mvyr"` generates. -/
def collidingStore : List Booking :=
  [{ id := .string "lqu5m2o04fzyo"
     name := .string "Ann"
     email := .string "ann@example.com"
     startTime := .string "2024-01-01T09:00:00.000Z"
     endTime := .string "2024-01-01T09:30:00.000Z"
     meetingType := .undefined
     notes := .undefined
     createdAt := .string "2024-01-01T00:00:00.000Z" }]

/-- The opening `dayStart` of the day of `t` under the entry `av` (lines 73, 76, 77). -/
def dayStartOf (host : Host) (t : Int) (av : DayAvailability) : JSDate :=
  setHours host (some t) (hourMin host av.start).1 (hourMin host av.start).2

/-- The closing `dayEnd` of the day of `t` under the entry `av` (lines 74, 78, 79). -/
def dayEndOf (host : Host) (t : Int) (av : DayAvailability) : JSDate :=
  setHours host (some t) (hourMin host av.end_).1 (hourMin host av.end_).2

/-- The value of `current` after `n` passes through line 96. -/
def nthCurrent (host : Host) : Nat → JSDate → JSDate
  | 0, current => current
  | n + 1, current => nthCurrent host n (setDateNext host current)

/-! ## Time zones with whole local days -/

/-- The instant at which local day number `D` begins: `UTC` of its local midnight. -/
def midnight (host : Host) (D : Int) : Int :=
  utc host (D * msPerDay)

/-- The local days of the zone are whole: the instants of the local midnights do
not go backwards from one day to the next; every instant lies at or after the
midnight of its local day and before the next midnight; and a local time value of a
day is taken by `UTC` to an instant from the midnight of that day to the next. A
zone with a fixed offset is such a zone, and so is a zone whose daylight saving
transitions leave the local midnights alone. -/
def Host.wholeDays (host : Host) : Prop :=
  (∀ D, midnight host D ≤ midnight host (D + 1)) ∧
  (∀ t, midnight host (day (localTime host t)) ≤ t ∧
    t < midnight host (day (localTime host t) + 1)) ∧
  (∀ l, midnight host (day l) ≤ utc host l ∧ utc host l ≤ midnight host (day l + 1))

/-! ## Predicates used to state the theorems -/

/-- The overlap test of the specification on two slots. -/
def overlaps (a b : Slot) : Prop :=
  a.start < b.end_ ∧ a.end_ > b.start

instance (a b : Slot) : Decidable (overlaps a b) := by
  unfold overlaps
  infer_instance

/-- The slot `x` is candidate number `k`, for some `k`, of a day that opens at
`dayStart` and closes at `dayEnd`, it passed the three tests, and the clock reading
it was compared with has an index from `lo` up to, not including, `hi`. -/
def PushedOn (host : Host) (bookings : List Booking) (duration stepMs dayStart dayEnd : Int)
    (lo hi : Nat) (x : Slot) : Prop :=
  ∃ k : Nat, x.start = dayStart + k * stepMs ∧ x.start < dayEnd ∧
    x.end_ = x.start + duration * 60000 ∧ x.end_ ≤ dayEnd ∧
    isBooked host bookings (some x.start) (some x.end_) = false ∧
    ∃ i, lo ≤ i ∧ i < hi ∧ host.clock i < x.start

/-- The slot `x` was pushed during the iteration of the outer loop in which
`current` has time value `t`. -/
def EmittedOnDay (host : Host) (config : Config) (bookings : List Booking) (duration t : Int)
    (lo hi : Nat) (x : Slot) : Prop :=
  ∃ av ds de, config.availability.entry (weekDay (localTime host t)) = some av ∧
    setHours host (some t) (hourMin host av.start).1 (hourMin host av.start).2
      = some ds ∧
    setHours host (some t) (hourMin host av.end_).1 (hourMin host av.end_).2
      = some de ∧
    PushedOn host bookings duration ((duration + config.bufferTime) * 60000) ds de lo hi x

/-- The open interval of the entry lies within its day: a start that is a number is
at or after 00:00, an end that is a number is at or before 24:00. -/
def inDay (host : Host) (av : DayAvailability) : Bool :=
  (match hourMin host av.start with
    | (some h, some m) => decide (0 ≤ h * msPerHour + m * msPerMinute)
    | _ => true) &&
  (match hourMin host av.end_ with
    | (some h, some m) => decide (h * msPerHour + m * msPerMinute ≤ msPerDay)
    | _ => true)

/-- Every non-null entry of the weekly template lies within its day. -/
def templateInDay (host : Host) (config : Config) : Bool :=
  [config.availability.sunday, config.availability.monday, config.availability.tuesday,
    config.availability.wednesday, config.availability.thursday, config.availability.friday,
    config.availability.saturday].all fun e =>
      match e with
      | none => true
      | some av => inDay host av

/-! ## Concrete inputs -/

/-- The value of a string of decimal digits, most significant first. -/
def digitsValue : List Char → Nat → Option Nat
  | [], n => some n
  | c :: cs, n =>
      if '0' ≤ c ∧ c ≤ '9' then digitsValue cs (10 * n + (c.toNat - 48)) else none

/-- How `Number` reads a string of decimal digits (the empty string is 0). It is
applied to such strings only. -/
def decimalNumber (s : String) : Option Int :=
  (digitsValue s.data 0).map Int.ofNat

/-- A host in the UTC zone whose clock stands at `now` during the call. Its
`new Date(v)` is the one of the language on numbers, null and undefined; stored
values of another kind are not used with it. -/
def utcHost (now : Int) : Host where
  localTZA := fun _ _ => 0
  toNumber := decimalNumber
  newDate := fun v =>
    match v with
    | .number n => timeClip n
    | .null => some 0
    | _ => none
  clock := fun _ => now

/-- A host in the zone of Europe/Madrid with its two transitions of 2024: one hour
ahead of UTC until Sunday 03-31 01:00 UTC, two hours until Sunday 10-27 01:00 UTC,
one hour from then on. As a local time, a value before 03-31 03:00, the skipped hour
included, gets one hour; a value before 10-27 03:00, the repeated hour included, gets
two hours (the offset before the transition, as ECMA-262 asks); a later one gets one
hour. Its clock stands at `now`. -/
def madridHost (now : Int) : Host where
  localTZA := fun t isUTC =>
    if isUTC then
      (if t < 1711846800000 then 3600000 else if t < 1729990800000 then 7200000 else 3600000)
    else
      (if t < 1711854000000 then 3600000 else if t < 1729998000000 then 7200000 else 3600000)
  toNumber := decimalNumber
  newDate := fun v =>
    match v with
    | .number n => timeClip n
    | .null => some 0
    | _ => none
  clock := fun _ => now

/-- Thursday 2024-03-28 00:00:00 UTC. -/
def thursdayMarch : Int := 1711584000000

/-- Friday 2024-03-29 00:00:00 in Madrid, 23:00 UTC the day before. -/
def fridayMadrid : Int := 1711666800000

/-- Tuesday 2024-04-02 00:00:00 in Madrid, 22:00 UTC the day before. -/
def tuesdayMadrid : Int := 1712008800000

/-- A template open on Friday and on Monday from 09:00 to 10:30. -/
def fridayMonday : Config where
  meetingDuration := 30
  bufferTime := 15
  availability :=
    { sunday := none, monday := some ⟨"09:00", "10:30"⟩, tuesday := none,
      wednesday := none, thursday := none, friday := some ⟨"09:00", "10:30"⟩,
      saturday := none }

/-- Sunday 2023-12-31 05:20:00 UTC. -/
def sundayMorning : Int := 1704000000000

/-- Monday 2024-01-01 00:00:00 UTC. -/
def monday0 : Int := 1704067200000

/-- Tuesday 2024-01-02 00:00:00 UTC. -/
def tuesday0 : Int := 1704153600000

/-- Wednesday 2024-01-03 00:00:00 UTC. -/
def wednesday0 : Int := 1704240000000

/-- A template open on Monday from 09:00 to 11:00 only. -/
def shortMonday : Config where
  meetingDuration := 30
  bufferTime := 15
  availability :=
    { sunday := none, monday := some ⟨"09:00", "11:00"⟩, tuesday := none, wednesday := none,
      thursday := none, friday := none, saturday := none }

/-- A template whose Monday closes at 26:00, two hours into Tuesday, which is closed. -/
def lateMonday : Config where
  meetingDuration := 60
  bufferTime := 0
  availability :=
    { sunday := none, monday := some ⟨"23:00", "26:00"⟩, tuesday := none, wednesday := none,
      thursday := none, friday := none, saturday := none }

/-- A template whose Monday runs into Tuesday, which opens at 00:30. -/
def mondayIntoTuesday : Config where
  meetingDuration := 60
  bufferTime := 0
  availability :=
    { sunday := none, monday := some ⟨"23:00", "26:00"⟩,
      tuesday := some ⟨"00:30", "02:00"⟩, wednesday := none,
      thursday := none, friday := none, saturday := none }

/-- A booking on Monday 2024-01-01 from 09:30 to 10:30 UTC, its times stored as
numbers. -/
def mondayBooking : Booking :=
  { id := .string "lqu5m2o04fzyo"
    name := .string "Ann"
    email := .string "ann@example.com"
    startTime := .number 1704101400000
    endTime := .number 1704105000000
    meetingType := .undefined
    notes := .undefined
    createdAt := .string "2023-12-31T05:20:00.000Z" }

/-- Monday 2024-01-01 10:00:00 UTC. -/
def monday10h : Int := 1704103200000

/-- Monday 2024-01-01 10:30:00 UTC. -/
def monday10h30 : Int := 1704105000000

/-- Monday 2024-01-01 15:00:00 UTC. -/
def monday15h : Int := 1704121200000

/-- Tuesday 2024-01-02 10:00:00 UTC. -/
def tuesday10h : Int := 1704189600000

/-- A number of iterations no inner loop with a step other than zero exceeds: the
whole range of time values, twice `maxTime`, walked in steps of one minute, and one
more. -/
def enoughFuel : Nat := 288000000001

/-! ## The candidates of one day, as the specification describes them

These definitions are written with integer time values and plain comparisons; none
of them uses the functions of the slot calculator. -/

/-- The overlap test of the specification between a slot from `s` to `e` and a
booking: `s < bookingEnd` and `e > bookingStart`. A booking one of whose times is not
a valid date overlaps nothing. -/
def overlapsBooking (host : Host) (b : Booking) (s e : Int) : Bool :=
  match host.newDate b.startTime, host.newDate b.endTime with
  | some bookingStart, some bookingEnd => decide (s < bookingEnd ∧ e > bookingStart)
  | _, _ => false

/-- The candidate that starts at `s` ends, `duration` minutes later, at a date at or
before `dayEnd` (an end below the smallest time value is no date), and it overlaps
no booking. -/
def acceptable (host : Host) (bookings : List Booking) (duration dayEnd s : Int) : Bool :=
  decide (-maxTime ≤ s + duration * 60000 ∧ s + duration * 60000 ≤ dayEnd) &&
    bookings.all fun b => !overlapsBooking host b s (s + duration * 60000)

/-- The number of clock readings taken before candidate `k` of a day is tested: one
for each earlier candidate that is acceptable. -/
def readsBefore (host : Host) (bookings : List Booking) (duration stepMs dayStart dayEnd : Int)
    (k : Nat) : Nat :=
  ((List.range k).filter fun (j : Nat) =>
    acceptable host bookings duration dayEnd (dayStart + j * stepMs)).length

/-- The slots emitted for the first `n` candidates of a day that opens at `dayStart`
and closes at `dayEnd`, in increasing `k`: candidate `k` starts at `dayStart` plus
`k` steps, and it is emitted when it is acceptable and starts after the clock
reading taken at its test; `reads` readings were taken before the day. -/
def emittedSlots (host : Host) (bookings : List Booking)
    (duration stepMs dayStart dayEnd : Int) (reads n : Nat) : List Slot :=
  (List.range n).filterMap fun (k : Nat) =>
    if acceptable host bookings duration dayEnd (dayStart + k * stepMs) = true ∧
        host.clock (reads + readsBefore host bookings duration stepMs dayStart dayEnd k)
          < dayStart + k * stepMs then
      some ⟨dayStart + k * stepMs, dayStart + k * stepMs + duration * 60000⟩
    else none

/-- A booking on Monday 2024-01-01 from 13:00 to 14:00 UTC, its times stored as
numbers. -/
def afternoonBooking : Booking :=
  { id := .string "lqu5m2o1abcde"
    name := .string "Cleo"
    email := .string "cleo@example.com"
    startTime := .number 1704114000000
    endTime := .number 1704117600000
    meetingType := .undefined
    notes := .undefined
    createdAt := .string "2023-12-31T05:20:00.000Z" }

/-- Monday 2024-01-01 11:30:00 UTC. -/
def monday11h30 : Int := 1704108600000

/-! ## The tests the run reaches -/

/-- The outer loop evaluates its condition with the date `current` and the state
`acc`: at the start of the call, and after each pass through its body. -/
inductive DayReached (host : Host) (config : Config) (bookings : List Booking)
    (duration : Int) (fuel : Nat) (startDate endDate : JSDate) : JSDate → Acc → Prop where
  | start : DayReached host config bookings duration fuel startDate endDate startDate ([], 0)
  | next {current : JSDate} {acc acc1 : Acc} :
      DayReached host config bookings duration fuel startDate endDate current acc →
      dateLt current endDate = true →
      daySlots host config bookings duration fuel current acc = some acc1 →
      DayReached host config bookings duration fuel startDate endDate
        (setDateNext host current) acc1

/-- The inner loop evaluates its condition with the candidate start `slotStart`, on
a day that closes at `dayEnd`, in the state `acc`, whose second component is the
number of clock readings taken so far in the call: at the opening of a visited open
day, and after each test of a candidate. -/
inductive TestReached (host : Host) (config : Config) (bookings : List Booking)
    (duration : Int) (fuel : Nat) (startDate endDate : JSDate) :
    JSDate → JSDate → Acc → Prop where
  | first {t : Int} {acc : Acc} {av : DayAvailability} :
      DayReached host config bookings duration fuel startDate endDate (some t) acc →
      dateLt (some t) endDate = true →
      config.availability.entry (weekDay (localTime host t)) = some av →
      TestReached host config bookings duration fuel startDate endDate
        (dayEndOf host t av) (dayStartOf host t av) acc
  | next {dayEnd slotStart : JSDate} {acc : Acc} :
      TestReached host config bookings duration fuel startDate endDate dayEnd slotStart acc →
      dateLt slotStart dayEnd = true →
      TestReached host config bookings duration fuel startDate endDate dayEnd
        (plusMs slotStart ((duration + config.bufferTime) * 60000))
        (testCandidate host bookings duration dayEnd slotStart acc)

/-- The slot `x` was pushed by the test of a candidate that the run reaches: the
candidate starts at `x.start`, the test is made in a state `acc` with `acc.2` clock
readings taken before, it takes reading number `acc.2`, pushes `x`, and `x` starts
strictly after that reading. -/
def PushedAfterItsReading (host : Host) (config : Config) (bookings : List Booking)
    (duration : Int) (fuel : Nat) (startDate endDate : JSDate) (x : Slot) : Prop :=
  ∃ dayEnd acc,
    TestReached host config bookings duration fuel startDate endDate dayEnd (some x.start) acc ∧
    dateLt (some x.start) dayEnd = true ∧
    testCandidate host bookings duration dayEnd (some x.start) acc
      = (acc.1 ++ [x], acc.2 + 1) ∧
    host.clock acc.2 < x.start

/-- A host in the UTC zone whose clock advances during the call: the first reading
is Monday 2024-01-01 08:50, the second 09:50, and each later one ten minutes after
the one before. -/
def advancingHost : Host where
  localTZA := fun _ _ => 0
  toNumber := decimalNumber
  newDate := fun v =>
    match v with
    | .number n => timeClip n
    | .null => some 0
    | _ => none
  clock := fun i => if i = 0 then 1704099000000 else 1704102600000 + ((i - 1 : Nat) : Int) * 600000

/-! # Lemmas and theorems

## The booking store -/

theorem findIndex_eq_none {p : Booking → Bool} :
    ∀ {l : List Booking}, findIndex p l = none → ∀ b ∈ l, p b = false
  | [], _, b, hb => by cases hb
  | a :: l, h, b, hb => by
    unfold findIndex at h
    by_cases hp : p a = true
    · simp [hp] at h
    · simp only [hp, Bool.false_eq_true, if_false, Option.map_eq_none'] at h
      rcases List.mem_cons.1 hb with rfl | hb
      · simpa using hp
      · exact findIndex_eq_none h b hb

theorem findIndex_eq_some {p : Booking → Bool} :
    ∀ {l : List Booking} {i : Nat}, findIndex p l = some i →
      ∃ pre b post, l = pre ++ b :: post ∧ pre.length = i ∧ p b = true ∧
        ∀ x ∈ pre, p x = false
  | [], i, h => by simp [findIndex] at h
  | a :: l, i, h => by
    unfold findIndex at h
    by_cases hp : p a = true
    · simp only [hp, if_true, Option.some.injEq] at h
      exact ⟨[], a, l, rfl, by simpa using h, hp, by simp⟩
    · simp only [hp, Bool.false_eq_true, if_false, Option.map_eq_some'] at h
      obtain ⟨j, hj, rfl⟩ := h
      obtain ⟨pre, b, post, rfl, hlen, hb, hpre⟩ := findIndex_eq_some hj
      refine ⟨a :: pre, b, post, rfl, by simp [hlen], hb, ?_⟩
      intro x hx
      rcases List.mem_cons.1 hx with rfl | hx
      · simpa using hp
      · exact hpre x hx

theorem get?_append_length (pre post : List Booking) (b : Booking) :
    (pre ++ b :: post).get? pre.length = some b := by
  induction pre with
  | nil => rfl
  | cons a pre ih => simpa using ih

theorem eraseIdx_append_length (pre post : List Booking) (b : Booking) :
    (pre ++ b :: post).eraseIdx pre.length = pre ++ post := by
  induction pre with
  | nil => rfl
  | cons a pre ih => simpa using ih

/-- What `DELETE /api/bookings/:id` does, in both cases. -/
theorem apiCancel_cases (store : List Booking) (id : String) :
    ((∀ b ∈ store, b.id ≠ .string id) ∧
        apiCancel store id = (.error 404 "Not found", store)) ∨
    (∃ pre b post, store = pre ++ b :: post ∧ (∀ x ∈ pre, x.id ≠ .string id) ∧
        b.id = .string id ∧ apiCancel store id = (.cancelled (some b), pre ++ post)) := by
  unfold apiCancel
  cases h : findIndex (fun b => decide (b.id = .string id)) store with
  | none =>
    left
    refine ⟨fun b hb => ?_, rfl⟩
    simpa using findIndex_eq_none h b hb
  | some i =>
    right
    obtain ⟨pre, b, post, rfl, rfl, hb, hpre⟩ := findIndex_eq_some h
    refine ⟨pre, b, post, rfl, fun x hx => ?_, by simpa using hb, ?_⟩
    · simpa using hpre x hx
    · simp only [get?_append_length, eraseIdx_append_length]

theorem apiBook_incomplete (store : List Booking) (body : BookRequest) (now : Int)
    (random36 createdAt : String) (h : body.incomplete = true) :
    apiBook store body now random36 createdAt = (.error 400 "Missing required fields", store) := by
  unfold BookRequest.incomplete at h
  unfold apiBook
  rw [if_pos h]

theorem apiBook_complete (store : List Booking) (body : BookRequest) (now : Int)
    (random36 createdAt : String) (h : body.incomplete = false) :
    apiBook store body now random36 createdAt =
      (.booked (bookingOf body now random36 createdAt),
        store ++ [bookingOf body now random36 createdAt]) := by
  unfold BookRequest.incomplete at h
  unfold apiBook
  rw [if_neg (by simp [h])]
  rfl

/-- C7. `DELETE /api/bookings/:id`: when no stored booking has the id the answer is
404 with error `Not found` and the store is unchanged; otherwise the first record
with that id is removed and returned as `cancelled`, and the records before and
after it stay, in their order. -/
theorem C7_cancel_first_match_or_not_found (store : List Booking) (id : String) :
    ((∀ b ∈ store, b.id ≠ .string id) ∧
        apiCancel store id = (.error 404 "Not found", store)) ∨
    (∃ pre b post, store = pre ++ b :: post ∧ (∀ x ∈ pre, x.id ≠ .string id) ∧
        b.id = .string id ∧ apiCancel store id = (.cancelled (some b), pre ++ post)) :=
  apiCancel_cases store id

/-- C5, as stated, fails: a body in which none of the four required fields is
missing, its `name` being the empty string, is answered 400 all the same. -/
theorem C5_counterexample_empty_name :
    ¬ ((apiBook [] emptyNameBody 1704067200000 "0.4fzyo82mvyr" "2024-01-01T00:00:00.000Z").1
          = .error 400 "Missing required fields" ↔
        (emptyNameBody.name = .undefined ∨ emptyNameBody.email = .undefined ∨
          emptyNameBody.startTime = .undefined ∨ emptyNameBody.endTime = .undefined)) := by
  decide

/-- C5, amended. `POST /api/book` answers 400 with error `Missing required fields`
exactly when one of `name`, `email`, `startTime`, `endTime` is falsy (absent, null,
empty string, zero or false), and then the store is unchanged; otherwise it answers
the new record, which carries the six submitted fields, the generated id and
`createdAt`, and the store is the old list with that one record appended. -/
theorem C5_book_rejects_falsy_else_appends (store : List Booking) (body : BookRequest)
    (now : Int) (random36 createdAt : String) :
    ((apiBook store body now random36 createdAt).1 = .error 400 "Missing required fields" ↔
      (body.name.truthy = false ∨ body.email.truthy = false ∨
        body.startTime.truthy = false ∨ body.endTime.truthy = false)) ∧
    ((body.name.truthy = false ∨ body.email.truthy = false ∨
        body.startTime.truthy = false ∨ body.endTime.truthy = false) ∧
      apiBook store body now random36 createdAt
        = (.error 400 "Missing required fields", store) ∨
     (body.name.truthy = true ∧ body.email.truthy = true ∧
        body.startTime.truthy = true ∧ body.endTime.truthy = true) ∧
      apiBook store body now random36 createdAt
        = (.booked ⟨.string (newId now random36), body.name, body.email, body.startTime,
              body.endTime, body.meetingType, body.notes, .string createdAt⟩,
            store ++ [⟨.string (newId now random36), body.name, body.email, body.startTime,
              body.endTime, body.meetingType, body.notes, .string createdAt⟩])) := by
  cases h : body.incomplete with
  | true =>
    have hb := apiBook_incomplete store body now random36 createdAt h
    have hf : body.name.truthy = false ∨ body.email.truthy = false ∨
        body.startTime.truthy = false ∨ body.endTime.truthy = false := by
      simpa [BookRequest.incomplete, or_assoc] using h
    exact ⟨by simp [hb, hf], Or.inl ⟨hf, hb⟩⟩
  | false =>
    have hb := apiBook_complete store body now random36 createdAt h
    have ht : body.name.truthy = true ∧ body.email.truthy = true ∧
        body.startTime.truthy = true ∧ body.endTime.truthy = true := by
      simpa [BookRequest.incomplete, and_assoc] using h
    refine ⟨?_, Or.inr ⟨ht, hb⟩⟩
    rw [hb]
    simp [ht.1, ht.2.1, ht.2.2.1, ht.2.2.2]

/-- C6, as stated, fails: in a store that already holds a record with the generated
id, the booking is made, but cancelling by its id returns the older record as
`cancelled` and the new booking, with that id, is still listed. -/
theorem C6_counterexample_id_collision :
    (apiBook collidingStore bobBody 1704067200000 "0.4fzyo82mvyr" "2024-01-01T00:00:00.000Z").1
      = .booked (bookingOf bobBody 1704067200000 "0.4fzyo82mvyr" "2024-01-01T00:00:00.000Z") ∧
    (apiCancel
        (apiBook collidingStore bobBody 1704067200000 "0.4fzyo82mvyr"
          "2024-01-01T00:00:00.000Z").2
        (newId 1704067200000 "0.4fzyo82mvyr")).1
      ≠ .cancelled (some (bookingOf bobBody 1704067200000 "0.4fzyo82mvyr"
          "2024-01-01T00:00:00.000Z")) ∧
    apiBookings
        (apiCancel
          (apiBook collidingStore bobBody 1704067200000 "0.4fzyo82mvyr"
            "2024-01-01T00:00:00.000Z").2
          (newId 1704067200000 "0.4fzyo82mvyr")).2
      = .list [bookingOf bobBody 1704067200000 "0.4fzyo82mvyr" "2024-01-01T00:00:00.000Z"] ∧
    (bookingOf bobBody 1704067200000 "0.4fzyo82mvyr" "2024-01-01T00:00:00.000Z").id
      = .string (newId 1704067200000 "0.4fzyo82mvyr") := by
  decide

/-- C6, amended. For every store in which no record has the id about to be
generated, and every body whose four required fields are truthy: `POST /api/book`
answers the new booking; `GET /api/bookings` then lists the old records followed by
that booking, with the submitted fields; `DELETE /api/bookings/:id` with its id
answers that booking as `cancelled`, and the list is then the old store, in which no
record has that id. -/
theorem C6_round_trip_with_fresh_id (store : List Booking) (body : BookRequest) (now : Int)
    (random36 createdAt : String)
    (hname : body.name.truthy = true) (hemail : body.email.truthy = true)
    (hstart : body.startTime.truthy = true) (hend : body.endTime.truthy = true)
    (hfresh : ∀ b ∈ store, b.id ≠ .string (newId now random36)) :
    (apiBook store body now random36 createdAt).1
      = .booked (bookingOf body now random36 createdAt) ∧
    apiBookings (apiBook store body now random36 createdAt).2
      = .list (store ++ [bookingOf body now random36 createdAt]) ∧
    ((bookingOf body now random36 createdAt).id = .string (newId now random36) ∧
      (bookingOf body now random36 createdAt).name = body.name ∧
      (bookingOf body now random36 createdAt).email = body.email ∧
      (bookingOf body now random36 createdAt).startTime = body.startTime ∧
      (bookingOf body now random36 createdAt).endTime = body.endTime ∧
      (bookingOf body now random36 createdAt).meetingType = body.meetingType ∧
      (bookingOf body now random36 createdAt).notes = body.notes) ∧
    apiCancel (apiBook store body now random36 createdAt).2 (newId now random36)
      = (.cancelled (some (bookingOf body now random36 createdAt)), store) ∧
    (∀ x, apiBookings
        (apiCancel (apiBook store body now random36 createdAt).2 (newId now random36)).2
          = .list x → ∀ b ∈ x, b.id ≠ .string (newId now random36)) := by
  have hc : body.incomplete = false := by
    simp [BookRequest.incomplete, hname, hemail, hstart, hend]
  have hb := apiBook_complete store body now random36 createdAt hc
  have hcancel : apiCancel (store ++ [bookingOf body now random36 createdAt])
      (newId now random36)
      = (.cancelled (some (bookingOf body now random36 createdAt)), store) := by
    rcases apiCancel_cases (store ++ [bookingOf body now random36 createdAt])
      (newId now random36) with ⟨hno, _⟩ | ⟨pre, b, post, hsplit, hpre, hid, hres⟩
    · exact absurd rfl (hno (bookingOf body now random36 createdAt) (by simp))
    · -- the first match is the appended record
      have hpost : post = [] := by
        cases post using List.reverseRecOn with
        | nil => rfl
        | append_singleton post z _ =>
          exfalso
          have h2 : store ++ [bookingOf body now random36 createdAt]
              = (pre ++ b :: post) ++ [z] := by simpa using hsplit
          have h3 := List.append_inj_left' h2 rfl
          exact hfresh b (by rw [h3]; simp) hid
      subst hpost
      have h3 := List.append_inj' hsplit rfl
      obtain ⟨h4, h5⟩ := h3
      have h6 : b = bookingOf body now random36 createdAt := by simpa using h5.symm
      rw [hres, h4, h6]
      simp
  rw [hb]
  refine ⟨rfl, rfl, ⟨rfl, rfl, rfl, rfl, rfl, rfl, rfl⟩, hcancel, ?_⟩
  intro x hx b hbx
  simp only [hcancel, apiBookings, Response.list.injEq] at hx
  subst hx
  exact hfresh b hbx

/-- C6 at a concrete input: a store that already holds a record, with another id, and
a complete body. The record stays in front of the new booking, the cancellation
passes over it, and the store it leaves is the old one. -/
theorem C6_round_trip_witness :
    (apiBook collidingStore bobBody 1704067200001 "0.4fzyo82mvyr" "2024-01-01T00:00:00.001Z").1
      = .booked (bookingOf bobBody 1704067200001 "0.4fzyo82mvyr" "2024-01-01T00:00:00.001Z") ∧
    apiBookings
        (apiBook collidingStore bobBody 1704067200001 "0.4fzyo82mvyr"
          "2024-01-01T00:00:00.001Z").2
      = .list (collidingStore
          ++ [bookingOf bobBody 1704067200001 "0.4fzyo82mvyr" "2024-01-01T00:00:00.001Z"]) ∧
    apiCancel
        (apiBook collidingStore bobBody 1704067200001 "0.4fzyo82mvyr"
          "2024-01-01T00:00:00.001Z").2
        (newId 1704067200001 "0.4fzyo82mvyr")
      = (.cancelled (some (bookingOf bobBody 1704067200001 "0.4fzyo82mvyr"
          "2024-01-01T00:00:00.001Z")), collidingStore) ∧
    collidingStore ≠ [] :=
  have h := C6_round_trip_with_fresh_id collidingStore bobBody 1704067200001 "0.4fzyo82mvyr"
    "2024-01-01T00:00:00.001Z" (by decide) (by decide) (by decide) (by decide) (by decide)
  ⟨h.1, h.2.1, h.2.2.2.1, by decide⟩

/-! ## Dates -/

theorem timeClip_eq_some {t u : Int} (h : timeClip t = some u) :
    u = t ∧ -maxTime ≤ t ∧ t ≤ maxTime := by
  unfold timeClip at h
  split at h
  · rename_i hr
    exact ⟨(Option.some.inj h).symm, hr.1, hr.2⟩
  · cases h

theorem timeClip_of_range {t : Int} (h1 : -maxTime ≤ t) (h2 : t ≤ maxTime) :
    timeClip t = some t := by
  unfold timeClip
  rw [if_pos ⟨h1, h2⟩]

theorem dateLt_eq_true {a b : JSDate} (h : dateLt a b = true) :
    ∃ x y, a = some x ∧ b = some y ∧ x < y := by
  cases a <;> cases b <;> simp [dateLt] at h
  exact ⟨_, _, rfl, rfl, h⟩

theorem dateLe_eq_true {a b : JSDate} (h : dateLe a b = true) :
    ∃ x y, a = some x ∧ b = some y ∧ x ≤ y := by
  cases a <;> cases b <;> simp [dateLe] at h
  exact ⟨_, _, rfl, rfl, h⟩

theorem dateLt_some (x y : Int) : dateLt (some x) (some y) = decide (x < y) := rfl

theorem dateLe_some (x y : Int) : dateLe (some x) (some y) = decide (x ≤ y) := rfl

theorem plusMs_eq_some {d : JSDate} {ms u : Int} (h : plusMs d ms = some u) :
    ∃ t, d = some t ∧ u = t + ms := by
  cases d with
  | none => simp [plusMs] at h
  | some t =>
    simp only [plusMs, Option.some_bind] at h
    exact ⟨t, rfl, (timeClip_eq_some h).1⟩

/-! ## One candidate -/

/-- The two things `testCandidate` can do: leave the array alone, or push the
candidate, which then has passed the three tests. -/
theorem testCandidate_cases (host : Host) (bookings : List Booking) (duration : Int)
    (dayEnd slotStart : JSDate) (acc : Acc) :
    ((testCandidate host bookings duration dayEnd slotStart acc).1 = acc.1 ∧
      acc.2 ≤ (testCandidate host bookings duration dayEnd slotStart acc).2 ∧
      (testCandidate host bookings duration dayEnd slotStart acc).2 ≤ acc.2 + 1) ∨
    (∃ s de, slotStart = some s ∧ dayEnd = some de ∧ s + duration * 60000 ≤ de ∧
      isBooked host bookings (some s) (some (s + duration * 60000)) = false ∧
      host.clock acc.2 < s ∧
      testCandidate host bookings duration dayEnd slotStart acc
        = (acc.1 ++ [⟨s, s + duration * 60000⟩], acc.2 + 1)) := by
  unfold testCandidate
  simp only
  split
  · rename_i hfit
    split
    · rename_i hfree
      split
      · rename_i hfuture
        right
        obtain ⟨e, de, he, hde, hle⟩ := dateLe_eq_true hfit
        obtain ⟨c, s, _, hs, hlt⟩ := dateLt_eq_true hfuture
        obtain ⟨s1, hs1, he1⟩ := plusMs_eq_some he
        rw [hs] at hs1
        cases hs1
        subst he1
        have hc : c = host.clock acc.2 := by
          rename_i hcc
          exact (Option.some.inj hcc).symm
        subst hc
        subst hs
        refine ⟨s, de, rfl, hde, hle, ?_, hlt, ?_⟩
        · rw [he] at hfree
          simpa using hfree
        · rw [he]
          rfl
      · left
        exact ⟨rfl, Nat.le_succ _, le_refl _⟩
    · left
      exact ⟨rfl, le_refl _, Nat.le_succ _⟩
  · left
    exact ⟨rfl, le_refl _, Nat.le_succ _⟩

/-! ## The two loops, unfolded once -/

theorem slotLoop_exit (host : Host) (config : Config) (bookings : List Booking)
    (duration : Int) (dayEnd : JSDate) (fuel : Nat) (slotStart : JSDate) (acc : Acc)
    (h : dateLt slotStart dayEnd = false) :
    slotLoop host config bookings duration dayEnd fuel slotStart acc = some acc := by
  cases fuel <;> simp [slotLoop, h]

theorem slotLoop_zero (host : Host) (config : Config) (bookings : List Booking)
    (duration : Int) (dayEnd : JSDate) (slotStart : JSDate) (acc : Acc)
    (h : dateLt slotStart dayEnd = true) :
    slotLoop host config bookings duration dayEnd 0 slotStart acc = none := by
  simp [slotLoop, h]

theorem slotLoop_succ (host : Host) (config : Config) (bookings : List Booking)
    (duration : Int) (dayEnd : JSDate) (fuel : Nat) (slotStart : JSDate) (acc : Acc)
    (h : dateLt slotStart dayEnd = true) :
    slotLoop host config bookings duration dayEnd (fuel + 1) slotStart acc
      = slotLoop host config bookings duration dayEnd fuel
          (plusMs slotStart ((duration + config.bufferTime) * 60000))
          (testCandidate host bookings duration dayEnd slotStart acc) := by
  simp [slotLoop, h]

theorem dayLoop_exit (host : Host) (config : Config) (bookings : List Booking)
    (duration : Int) (endDate : JSDate) (innerFuel fuel : Nat) (current : JSDate) (acc : Acc)
    (h : dateLt current endDate = false) :
    dayLoop host config bookings duration endDate innerFuel fuel current acc = some acc := by
  cases fuel <;> simp [dayLoop, h]

theorem dayLoop_zero (host : Host) (config : Config) (bookings : List Booking)
    (duration : Int) (endDate : JSDate) (innerFuel : Nat) (current : JSDate) (acc : Acc)
    (h : dateLt current endDate = true) :
    dayLoop host config bookings duration endDate innerFuel 0 current acc = none := by
  simp [dayLoop, h]

theorem dayLoop_succ (host : Host) (config : Config) (bookings : List Booking)
    (duration : Int) (endDate : JSDate) (innerFuel fuel : Nat) (current : JSDate) (acc : Acc)
    (h : dateLt current endDate = true) :
    dayLoop host config bookings duration endDate innerFuel (fuel + 1) current acc
      = (daySlots host config bookings duration innerFuel current acc).bind
          (dayLoop host config bookings duration endDate innerFuel fuel (setDateNext host current)) := by
  rw [dayLoop]
  simp only [h, if_true]
  cases daySlots host config bookings duration innerFuel current acc <;> rfl

/-- An invariant of the inner loop holds of what it returns: `Inv` relates the
candidate start about to be tested and the accumulated state. -/
theorem slotLoop_invariant (host : Host) (config : Config) (bookings : List Booking)
    (duration : Int) (dayEnd : JSDate) (Inv : JSDate → Acc → Prop)
    (hstep : ∀ t de acc, dayEnd = some de → t < de → Inv (some t) acc →
      Inv (plusMs (some t) ((duration + config.bufferTime) * 60000))
        (testCandidate host bookings duration dayEnd (some t) acc)) :
    ∀ (fuel : Nat) (slotStart : JSDate) (acc r : Acc), Inv slotStart acc →
      slotLoop host config bookings duration dayEnd fuel slotStart acc = some r →
      ∃ last, dateLt last dayEnd = false ∧ Inv last r := by
  intro fuel
  induction fuel with
  | zero =>
    intro slotStart acc r hinv h
    cases hlt : dateLt slotStart dayEnd with
    | true => rw [slotLoop_zero _ _ _ _ _ _ _ hlt] at h; cases h
    | false =>
      rw [slotLoop_exit _ _ _ _ _ _ _ _ hlt] at h
      cases h
      exact ⟨slotStart, hlt, hinv⟩
  | succ fuel ih =>
    intro slotStart acc r hinv h
    cases hlt : dateLt slotStart dayEnd with
    | true =>
      rw [slotLoop_succ _ _ _ _ _ _ _ _ hlt] at h
      obtain ⟨t, de, rfl, hde, htde⟩ := dateLt_eq_true hlt
      exact ih _ _ _ (hstep t de acc hde htde hinv) h
    | false =>
      rw [slotLoop_exit _ _ _ _ _ _ _ _ hlt] at h
      cases h
      exact ⟨slotStart, hlt, hinv⟩

/-- An invariant of the outer loop holds of what it returns. -/
theorem dayLoop_invariant (host : Host) (config : Config) (bookings : List Booking)
    (duration : Int) (endDate : JSDate) (innerFuel : Nat) (Inv : JSDate → Acc → Prop)
    (hstep : ∀ t e acc acc1, endDate = some e → t < e → Inv (some t) acc →
      daySlots host config bookings duration innerFuel (some t) acc = some acc1 →
      Inv (setDateNext host (some t)) acc1) :
    ∀ (fuel : Nat) (current : JSDate) (acc r : Acc), Inv current acc →
      dayLoop host config bookings duration endDate innerFuel fuel current acc = some r →
      ∃ last, dateLt last endDate = false ∧ Inv last r := by
  intro fuel
  induction fuel with
  | zero =>
    intro current acc r hinv h
    cases hlt : dateLt current endDate with
    | true => rw [dayLoop_zero _ _ _ _ _ _ _ _ hlt] at h; cases h
    | false =>
      rw [dayLoop_exit _ _ _ _ _ _ _ _ _ hlt] at h
      cases h
      exact ⟨current, hlt, hinv⟩
  | succ fuel ih =>
    intro current acc r hinv h
    cases hlt : dateLt current endDate with
    | true =>
      rw [dayLoop_succ _ _ _ _ _ _ _ _ _ hlt] at h
      obtain ⟨t, e, rfl, he, hte⟩ := dateLt_eq_true hlt
      cases hday : daySlots host config bookings duration innerFuel (some t) acc with
      | none => rw [hday] at h; cases h
      | some acc1 =>
        rw [hday] at h
        exact ih _ _ _ (hstep t e acc acc1 he hte hinv hday) h
    | false =>
      rw [dayLoop_exit _ _ _ _ _ _ _ _ _ hlt] at h
      cases h
      exact ⟨current, hlt, hinv⟩

/-! ## Where every returned slot comes from -/

theorem PushedOn.raise_hi {host : Host} {bookings : List Booking}
    {duration stepMs dayStart dayEnd : Int} {lo hi hi1 : Nat} {x : Slot}
    (h : PushedOn host bookings duration stepMs dayStart dayEnd lo hi x) (hle : hi ≤ hi1) :
    PushedOn host bookings duration stepMs dayStart dayEnd lo hi1 x := by
  obtain ⟨k, h1, h2, h3, h4, h5, i, h6, h7, h8⟩ := h
  exact ⟨k, h1, h2, h3, h4, h5, i, h6, lt_of_lt_of_le h7 hle, h8⟩

theorem PushedOn.lower_lo {host : Host} {bookings : List Booking}
    {duration stepMs dayStart dayEnd : Int} {lo lo1 hi : Nat} {x : Slot}
    (h : PushedOn host bookings duration stepMs dayStart dayEnd lo hi x) (hle : lo1 ≤ lo) :
    PushedOn host bookings duration stepMs dayStart dayEnd lo1 hi x := by
  obtain ⟨k, h1, h2, h3, h4, h5, i, h6, h7, h8⟩ := h
  exact ⟨k, h1, h2, h3, h4, h5, i, le_trans hle h6, h7, h8⟩

/-- Every slot the inner loop returns was there before or is a candidate of this day
that passed the tests. -/
theorem slotLoop_mem (host : Host) (config : Config) (bookings : List Booking)
    (duration : Int) (dayEnd : JSDate) (fuel : Nat) (slotStart : JSDate) (acc r : Acc)
    (h : slotLoop host config bookings duration dayEnd fuel slotStart acc = some r) :
    acc.2 ≤ r.2 ∧ ∀ x ∈ r.1, x ∈ acc.1 ∨ ∃ t de, slotStart = some t ∧ dayEnd = some de ∧
      PushedOn host bookings duration ((duration + config.bufferTime) * 60000) t de
        acc.2 r.2 x := by
  cases hlt : dateLt slotStart dayEnd with
  | false =>
    rw [slotLoop_exit _ _ _ _ _ _ _ _ hlt] at h
    cases h
    exact ⟨le_refl _, fun x hx => Or.inl hx⟩
  | true =>
    obtain ⟨t0, de, rfl, rfl, _⟩ := dateLt_eq_true hlt
    have key := slotLoop_invariant host config bookings duration (some de)
      (fun s a => acc.2 ≤ a.2 ∧
        (∀ c, s = some c → ∃ k : Nat, c = t0 + k * ((duration + config.bufferTime) * 60000)) ∧
        ∀ x ∈ a.1, x ∈ acc.1 ∨
          PushedOn host bookings duration ((duration + config.bufferTime) * 60000) t0 de
            acc.2 a.2 x)
      (by
        intro t de1 a hde htde hinv
        obtain ⟨hmono, hcur, hmem⟩ := hinv
        obtain ⟨k, hk⟩ := hcur t rfl
        have hde1 : de1 = de := (Option.some.inj hde).symm
        subst hde1
        have hnext : ∀ c, plusMs (some t) ((duration + config.bufferTime) * 60000) = some c →
            ∃ k : Nat, c = t0 + k * ((duration + config.bufferTime) * 60000) := by
          intro c hc
          obtain ⟨t1, ht1, hc1⟩ := plusMs_eq_some hc
          cases ht1
          refine ⟨k + 1, ?_⟩
          rw [hc1, hk]
          push_cast
          ring
        rcases testCandidate_cases host bookings duration (some de1) (some t) a with
          ⟨h1, h2, _⟩ | ⟨s, de2, hs, hde2, hfit, hfree, hclock, hres⟩
        · refine ⟨le_trans hmono h2, hnext, ?_⟩
          intro x hx
          rw [h1] at hx
          rcases hmem x hx with hx | hx
          · exact Or.inl hx
          · exact Or.inr (hx.raise_hi h2)
        · cases hs
          cases hde2
          rw [hres]
          refine ⟨le_trans hmono (Nat.le_succ _), hnext, ?_⟩
          intro x hx
          rcases List.mem_append.1 hx with hx | hx
          · rcases hmem x hx with hx | hx
            · exact Or.inl hx
            · exact Or.inr (hx.raise_hi (Nat.le_succ _))
          · rw [List.mem_singleton] at hx
            subst hx
            exact Or.inr ⟨k, hk, htde, rfl, hfit, hfree, a.2, hmono, Nat.lt_succ_self _, hclock⟩)
      fuel (some t0) acc r
      ⟨le_refl _, fun c hc => ⟨0, by simpa using (Option.some.inj hc).symm⟩,
        fun x hx => Or.inl hx⟩ h
    obtain ⟨_, _, hmono, _, hmem⟩ := key
    refine ⟨hmono, fun x hx => ?_⟩
    rcases hmem x hx with hx | hx
    · exact Or.inl hx
    · exact Or.inr ⟨t0, de, rfl, rfl, hx⟩

/-- Every slot one iteration of the outer loop returns was there before or was
pushed on the day of `current`. -/
theorem daySlots_mem (host : Host) (config : Config) (bookings : List Booking)
    (duration : Int) (fuel : Nat) (t : Int) (acc r : Acc)
    (h : daySlots host config bookings duration fuel (some t) acc = some r) :
    acc.2 ≤ r.2 ∧ ∀ x ∈ r.1, x ∈ acc.1 ∨
      EmittedOnDay host config bookings duration t acc.2 r.2 x := by
  unfold daySlots at h
  simp only at h
  cases hav : config.availability.entry (weekDay (localTime host t)) with
  | none =>
    rw [hav] at h
    cases h
    exact ⟨le_refl _, fun x hx => Or.inl hx⟩
  | some av =>
    rw [hav] at h
    obtain ⟨hmono, hmem⟩ := slotLoop_mem _ _ _ _ _ _ _ _ _ h
    refine ⟨hmono, fun x hx => ?_⟩
    rcases hmem x hx with hx | ⟨ds, de, hds, hde, hp⟩
    · exact Or.inl hx
    · exact Or.inr ⟨av, ds, de, hav, hds, hde, hp⟩

theorem EmittedOnDay.widen {host : Host} {config : Config} {bookings : List Booking}
    {duration t : Int} {lo lo1 hi hi1 : Nat} {x : Slot}
    (h : EmittedOnDay host config bookings duration t lo hi x) (hlo : lo1 ≤ lo)
    (hhi : hi ≤ hi1) : EmittedOnDay host config bookings duration t lo1 hi1 x := by
  obtain ⟨av, ds, de, h1, h2, h3, h4⟩ := h
  exact ⟨av, ds, de, h1, h2, h3, (h4.raise_hi hhi).lower_lo hlo⟩

theorem nthCurrent_succ (host : Host) (n : Nat) (current : JSDate) :
    nthCurrent host (n + 1) current = setDateNext host (nthCurrent host n current) := by
  induction n generalizing current with
  | zero => rfl
  | succ n ih =>
    show nthCurrent host (n + 1) (setDateNext host current) = _
    rw [ih]
    rfl

/-- Every slot the outer loop returns was there before or was pushed on one of the
days visited: the day of `current`, of `current` advanced once, and so on, as long
as that date is before `endDate`. -/
theorem dayLoop_mem (host : Host) (config : Config) (bookings : List Booking)
    (duration : Int) (endDate : JSDate) (innerFuel fuel : Nat) (current : JSDate) (acc r : Acc)
    (h : dayLoop host config bookings duration endDate innerFuel fuel current acc = some r) :
    acc.2 ≤ r.2 ∧ ∀ x ∈ r.1, x ∈ acc.1 ∨ ∃ t e, ∃ n : Nat,
      nthCurrent host n current = some t ∧ endDate = some e ∧ t < e ∧
      EmittedOnDay host config bookings duration t acc.2 r.2 x := by
  have key := dayLoop_invariant host config bookings duration endDate innerFuel
    (fun s a => acc.2 ≤ a.2 ∧
      (∃ n : Nat, nthCurrent host n current = s) ∧
      ∀ x ∈ a.1, x ∈ acc.1 ∨ ∃ t e, ∃ n : Nat,
        nthCurrent host n current = some t ∧ endDate = some e ∧ t < e ∧
        EmittedOnDay host config bookings duration t acc.2 a.2 x)
    (by
      intro t e a a1 he hte hinv hday
      obtain ⟨hmono, ⟨n, hn⟩, hmem⟩ := hinv
      obtain ⟨hmono1, hmem1⟩ := daySlots_mem _ _ _ _ _ _ _ _ hday
      refine ⟨le_trans hmono hmono1, ⟨n + 1, by rw [nthCurrent_succ, hn]⟩, ?_⟩
      intro x hx
      rcases hmem1 x hx with hx | hx
      · rcases hmem x hx with hx | ⟨t1, e1, m, hm, he1, hlt, hx⟩
        · exact Or.inl hx
        · exact Or.inr ⟨t1, e1, m, hm, he1, hlt, hx.widen (le_refl _) hmono1⟩
      · exact Or.inr ⟨t, e, n, hn, he, hte, hx.widen hmono (le_refl _)⟩)
    fuel current acc r
    ⟨le_refl _, ⟨0, rfl⟩, fun x hx => Or.inl hx⟩ h
  obtain ⟨_, _, hmono, _, hmem⟩ := key
  exact ⟨hmono, hmem⟩

/-- Every slot `getAvailableSlots` returns was pushed on a visited day. -/
theorem getAvailableSlotsAux_mem (host : Host) (config : Config) (bookings : List Booking)
    (fuel : Nat) (startDate endDate : JSDate) (duration : Int) (r : Acc)
    (h : getAvailableSlotsAux host config bookings fuel startDate endDate duration = some r) :
    ∀ x ∈ r.1, ∃ t e, ∃ n : Nat, nthCurrent host n startDate = some t ∧ endDate = some e ∧
      t < e ∧ EmittedOnDay host config bookings duration t 0 r.2 x := by
  intro x hx
  rcases (dayLoop_mem _ _ _ _ _ _ _ _ _ _ h).2 x hx with hx | hx
  · cases hx
  · exact hx

theorem getAvailableSlots_eq_some {host : Host} {config : Config} {bookings : List Booking}
    {fuel : Nat} {startDate endDate : JSDate} {duration : Int} {slots : List Slot}
    (h : getAvailableSlots host config bookings fuel startDate endDate duration = some slots) :
    ∃ reads, getAvailableSlotsAux host config bookings fuel startDate endDate duration
      = some (slots, reads) := by
  unfold getAvailableSlots at h
  cases hr : getAvailableSlotsAux host config bookings fuel startDate endDate duration with
  | none => rw [hr] at h; cases h
  | some r =>
    rw [hr] at h
    simp only [Option.map_some', Option.some.injEq] at h
    exact ⟨r.2, by rw [← h]⟩

/-! ## Slots and bookings -/

theorem isBooked_eq_false {host : Host} {bookings : List Booking} {s e : JSDate}
    (h : isBooked host bookings s e = false) (b : Booking) (hb : b ∈ bookings) :
    ¬ (dateLt s (host.newDate b.endTime) = true ∧ dateLt (host.newDate b.startTime) e = true) := by
  unfold isBooked at h
  rw [List.any_eq_false] at h
  have := h b hb
  simpa using this

/-- C1. No slot returned by `getAvailableSlots` overlaps an existing booking: for a
returned slot `s` and a booking `b` the test `s.start < b.endTime && s.end > b.startTime`
of the code is false, and when both times of the booking are valid dates it is not
the case that `s.start < b.endTime` and `s.end > b.startTime`. -/
theorem C1_no_slot_overlaps_a_booking (host : Host) (config : Config)
    (bookings : List Booking) (fuel : Nat) (startDate endDate : JSDate) (duration : Int)
    (slots : List Slot)
    (h : getAvailableSlots host config bookings fuel startDate endDate duration = some slots) :
    ∀ s ∈ slots, ∀ b ∈ bookings,
      ¬ (dateLt (some s.start) (host.newDate b.endTime) = true ∧
          dateLt (host.newDate b.startTime) (some s.end_) = true) ∧
      ∀ bs be, host.newDate b.startTime = some bs → host.newDate b.endTime = some be →
        ¬ (s.start < be ∧ s.end_ > bs) := by
  intro s hs b hb
  obtain ⟨reads, hr⟩ := getAvailableSlots_eq_some h
  obtain ⟨t, e, n, _, _, _, av, ds, de, _, _, _, k, _, _, _, _, hfree, _⟩ :=
    getAvailableSlotsAux_mem _ _ _ _ _ _ _ _ hr s hs
  have hno := isBooked_eq_false hfree b hb
  refine ⟨hno, ?_⟩
  intro bs be hbs hbe hov
  apply hno
  rw [hbs, hbe]
  simp [dateLt, hov.1, hov.2]

/-- C1 at a concrete input: Monday 09:00 to 11:00, 30 minutes, buffer 15, one booking
from 09:30 to 10:30; the candidate 09:45 is dropped. -/
theorem C1_no_slot_overlaps_a_booking_witness :
    getAvailableSlots (utcHost sundayMorning) shortMonday [mondayBooking] 10
        (some monday0) (some tuesday0) 30
      = some [⟨1704099600000, 1704101400000⟩, ⟨1704105000000, 1704106800000⟩] ∧
    ∀ s ∈ [(⟨1704099600000, 1704101400000⟩ : Slot), ⟨1704105000000, 1704106800000⟩],
      ∀ b ∈ [mondayBooking],
        ¬ (dateLt (some s.start) ((utcHost sundayMorning).newDate b.endTime) = true ∧
            dateLt ((utcHost sundayMorning).newDate b.startTime) (some s.end_) = true) ∧
        ∀ bs be, (utcHost sundayMorning).newDate b.startTime = some bs →
          (utcHost sundayMorning).newDate b.endTime = some be →
          ¬ (s.start < be ∧ s.end_ > bs) :=
  ⟨by decide,
    C1_no_slot_overlaps_a_booking (utcHost sundayMorning) shortMonday [mondayBooking] 10
      (some monday0) (some tuesday0) 30 _ (by decide)⟩

/-! ## Days -/

theorem day_mono {y z : Int} (h : y ≤ z) : day y ≤ day z := by
  unfold day msPerDay
  omega

theorem inDay_of_template {host : Host} {config : Config} (h : templateInDay host config = true)
    {w : Int} {av : DayAvailability} (hav : config.availability.entry w = some av) :
    inDay host av = true := by
  unfold templateInDay at h
  simp only [List.all_cons, List.all_nil, Bool.and_true, Bool.and_eq_true] at h
  obtain ⟨h0, h1, h2, h3, h4, h5, h6⟩ := h
  unfold Availability.entry at hav
  split_ifs at hav
  · rw [hav] at h0; exact h0
  · rw [hav] at h1; exact h1
  · rw [hav] at h2; exact h2
  · rw [hav] at h3; exact h3
  · rw [hav] at h4; exact h4
  · rw [hav] at h5; exact h5
  · rw [hav] at h6; exact h6

theorem day_mul_msPerDay (D : Int) : day (D * msPerDay) = D := by
  unfold day msPerDay
  omega

theorem midnight_mono {host : Host} (hzone : host.wholeDays) {D E : Int} (h : D ≤ E) :
    midnight host D ≤ midnight host E :=
  monotone_int_of_le_succ hzone.1 h

/-- In a zone with whole local days, an instant between two consecutive local
midnights belongs to the local day of the first. -/
theorem day_localTime_eq {host : Host} (hzone : host.wholeDays) {s D : Int}
    (h1 : midnight host D ≤ s) (h2 : s < midnight host (D + 1)) :
    day (localTime host s) = D := by
  obtain ⟨h3, h4⟩ := hzone.2.1 s
  rcases lt_trichotomy (day (localTime host s)) D with hlt | heq | hgt
  · have := midnight_mono hzone (show day (localTime host s) + 1 ≤ D by omega)
    omega
  · exact heq
  · have := midnight_mono hzone (show D + 1 ≤ day (localTime host s) by omega)
    omega

/-- In a zone with whole local days, a later instant is not on an earlier local
day. -/
theorem day_localTime_mono {host : Host} (hzone : host.wholeDays) {s u : Int} (h : s ≤ u) :
    day (localTime host s) ≤ day (localTime host u) := by
  by_contra hcon
  obtain ⟨h1, _⟩ := hzone.2.1 s
  obtain ⟨_, h4⟩ := hzone.2.1 u
  have := midnight_mono hzone
    (show day (localTime host u) + 1 ≤ day (localTime host s) by omega)
  omega

/-- In a zone with whole local days, line 96 moves `current` to a later local day. -/
theorem setDateNext_later_day {host : Host} (hzone : host.wholeDays) {t c : Int}
    (h : setDateNext host (some t) = some c) :
    day (localTime host t) + 1 ≤ day (localTime host c) := by
  simp only [setDateNext] at h
  have hc := (timeClip_eq_some h).1
  have hday : day (localTime host t + msPerDay) = day (localTime host t) + 1 := by
    unfold day msPerDay
    omega
  obtain ⟨h1, _⟩ := hzone.2.2 (localTime host t + msPerDay)
  rw [hday, ← hc] at h1
  obtain ⟨_, h4⟩ := hzone.2.1 c
  by_contra hcon
  have := midnight_mono hzone
    (show day (localTime host c) + 1 ≤ day (localTime host t) + 1 by omega)
  omega

theorem nthCurrent_later_day {host : Host} (hzone : host.wholeDays) :
    ∀ (n : Nat) (t c : Int), nthCurrent host n (some t) = some c →
      day (localTime host t) ≤ day (localTime host c) := by
  intro n
  induction n with
  | zero =>
    intro t c h
    cases h
    exact le_refl _
  | succ n ih =>
    intro t c h
    rw [nthCurrent_succ] at h
    cases hn : nthCurrent host n (some t) with
    | none => rw [hn] at h; cases h
    | some u =>
      rw [hn] at h
      have := ih t u hn
      have := setDateNext_later_day hzone h
      omega

/-- In a zone with whole local days and with an entry that lies within its day, the
day opens at or after the local midnight of `t` and closes at or before the next
one. -/
theorem setHours_within_day {host : Host} (hzone : host.wholeDays) {av : DayAvailability}
    (hin : inDay host av = true) {t ds de : Int}
    (hds : setHours host (some t) (hourMin host av.start).1 (hourMin host av.start).2
      = some ds)
    (hde : setHours host (some t) (hourMin host av.end_).1 (hourMin host av.end_).2
      = some de) :
    midnight host (day (localTime host t)) ≤ ds ∧
      de ≤ midnight host (day (localTime host t) + 1) := by
  unfold inDay at hin
  rw [Bool.and_eq_true] at hin
  obtain ⟨hs, he⟩ := hin
  constructor
  · rcases hp : hourMin host av.start with ⟨_ | h, _ | m⟩ <;> rw [hp] at hds hs <;>
      simp only [setHours] at hds
    · cases hds
    · cases hds
    · cases hds
    · have hval := (timeClip_eq_some hds).1
      simp only [decide_eq_true_eq] at hs
      obtain ⟨h1, _⟩ := hzone.2.2
        (day (localTime host t) * msPerDay + (h * msPerHour + m * msPerMinute))
      have hd : day (localTime host t)
          ≤ day (day (localTime host t) * msPerDay + (h * msPerHour + m * msPerMinute)) := by
        have := day_mono (show day (localTime host t) * msPerDay
          ≤ day (localTime host t) * msPerDay + (h * msPerHour + m * msPerMinute) by omega)
        rwa [day_mul_msPerDay] at this
      have := midnight_mono hzone hd
      omega
  · rcases hp : hourMin host av.end_ with ⟨_ | h, _ | m⟩ <;> rw [hp] at hde he <;>
      simp only [setHours] at hde
    · cases hde
    · cases hde
    · cases hde
    · have hval := (timeClip_eq_some hde).1
      simp only [decide_eq_true_eq] at he
      rcases eq_or_lt_of_le he with heq | hlt
      · rw [hval, heq]
        have : day (localTime host t) * msPerDay + msPerDay
            = (day (localTime host t) + 1) * msPerDay := by ring
        rw [this]
        exact le_refl _
      · obtain ⟨_, h2⟩ := hzone.2.2
          (day (localTime host t) * msPerDay + (h * msPerHour + m * msPerMinute))
        have hd : day (day (localTime host t) * msPerDay + (h * msPerHour + m * msPerMinute))
            + 1 ≤ day (localTime host t) + 1 := by
          have h3 : day (localTime host t) * msPerDay + (h * msPerHour + m * msPerMinute)
              < (day (localTime host t) + 1) * msPerDay := by
            have : (day (localTime host t) + 1) * msPerDay
                = day (localTime host t) * msPerDay + msPerDay := by ring
            omega
          have h4 : day (day (localTime host t) * msPerDay + (h * msPerHour + m * msPerMinute))
              < day (localTime host t) + 1 := by
            by_contra hcon
            have := day_mono (le_of_lt h3)
            rw [day_mul_msPerDay] at this
            have h5 : day (day (localTime host t) * msPerDay
                + (h * msPerHour + m * msPerMinute)) = day (localTime host t) + 1 := by omega
            have h6 : (day (localTime host t) + 1) * msPerDay
                ≤ day (localTime host t) * msPerDay + (h * msPerHour + m * msPerMinute) := by
              rw [← h5]
              unfold day msPerDay
              omega
            omega
          omega
        have := midnight_mono hzone hd
        omega

/-- In a zone with whole local days, with an entry within its day and a step that is
not negative, a slot pushed on the day of `t` starts on the local calendar day of
`t`. -/
theorem EmittedOnDay.same_day {host : Host} {config : Config} {bookings : List Booking}
    {duration t : Int} {lo hi : Nat} {x : Slot}
    (h : EmittedOnDay host config bookings duration t lo hi x) (hzone : host.wholeDays)
    (htemplate : templateInDay host config = true) (hstep : 0 ≤ duration + config.bufferTime) :
    day (localTime host x.start) = day (localTime host t) := by
  obtain ⟨av, ds, de, hav, hds, hde, k, hk, hlt, _⟩ := h
  obtain ⟨h1, h2⟩ := setHours_within_day hzone (inDay_of_template htemplate hav) hds hde
  have hpos : 0 ≤ (k : Int) * ((duration + config.bufferTime) * 60000) :=
    mul_nonneg (Int.ofNat_nonneg k) (mul_nonneg hstep (by norm_num))
  apply day_localTime_eq hzone
  · omega
  · omega

/-- A zone with one offset for all instants and local times has whole local days. -/
theorem wholeDays_of_fixed_offset (host : Host) (c : Int)
    (h : ∀ t b, host.localTZA t b = c) : host.wholeDays := by
  refine ⟨?_, ?_, ?_⟩
  · intro D
    simp only [midnight, utc, h]
    unfold msPerDay
    omega
  · intro t
    simp only [midnight, utc, localTime, h, day]
    unfold msPerDay
    omega
  · intro l
    simp only [midnight, utc, h, day]
    unfold msPerDay
    omega

theorem utcHost_wholeDays (now : Int) : (utcHost now).wholeDays :=
  wholeDays_of_fixed_offset (utcHost now) 0 (fun _ _ => rfl)

/-- The zone of `madridHost`, with its two transitions, has whole local days. -/
theorem madridHost_wholeDays (now : Int) : (madridHost now).wholeDays := by
  refine ⟨?_, ?_, ?_⟩
  · intro D
    simp only [midnight, utc, madridHost]
    unfold msPerDay
    split_ifs <;> omega
  · intro t
    simp only [midnight, utc, localTime, madridHost, day]
    unfold msPerDay
    constructor
    · split_ifs <;> omega
    · split_ifs <;> omega
  · intro l
    simp only [midnight, utc, madridHost, day]
    unfold msPerDay
    constructor
    · split_ifs <;> omega
    · split_ifs <;> omega

/-! ## Week days, lengths and the date range -/

theorem nthCurrent_none (host : Host) (n : Nat) : nthCurrent host n none = none := by
  induction n with
  | zero => rfl
  | succ n ih => exact ih

/-- C3, as stated, fails: with Monday open from 23:00 to 26:00 and Tuesday closed,
the second returned slot starts on Tuesday at 00:00. -/
theorem C3_counterexample_entry_past_midnight :
    getAvailableSlots (utcHost sundayMorning) lateMonday [] 10 (some monday0) (some tuesday0) 60
      = some [⟨1704150000000, 1704153600000⟩, ⟨1704153600000, 1704157200000⟩,
          ⟨1704157200000, 1704160800000⟩] ∧
    lateMonday.availability.entry
        (weekDay (localTime (utcHost sundayMorning) 1704153600000)) = none := by
  decide

/-- C3, amended. Every slot returned by `getAvailableSlots` ends exactly `duration`
minutes after its start; and in a time zone with whole local days, when every
non-null entry of the template lies within its day (start at or after 00:00, end at
or before 24:00) and `duration + bufferTime` is not negative, every returned slot
starts on a local week day whose entry is non-null. -/
theorem C3_exact_length_and_open_weekday (host : Host) (config : Config)
    (bookings : List Booking) (fuel : Nat) (startDate endDate : JSDate) (duration : Int)
    (slots : List Slot)
    (h : getAvailableSlots host config bookings fuel startDate endDate duration = some slots) :
    (∀ s ∈ slots, s.end_ - s.start = duration * 60000) ∧
    (host.wholeDays → templateInDay host config = true → 0 ≤ duration + config.bufferTime →
      ∀ s ∈ slots,
        config.availability.entry (weekDay (localTime host s.start)) ≠ none) := by
  obtain ⟨reads, hr⟩ := getAvailableSlots_eq_some h
  constructor
  · intro s hs
    obtain ⟨t, e, n, _, _, _, av, ds, de, _, _, _, k, _, _, hlen, _⟩ :=
      getAvailableSlotsAux_mem _ _ _ _ _ _ _ _ hr s hs
    omega
  · intro hzone htemplate hstep s hs
    obtain ⟨t, e, n, _, _, _, hday⟩ := getAvailableSlotsAux_mem _ _ _ _ _ _ _ _ hr s hs
    have hsame := hday.same_day hzone htemplate hstep
    obtain ⟨av, _, _, hav, _⟩ := hday
    unfold weekDay
    rw [hsame]
    unfold weekDay at hav
    rw [hav]
    exact Option.some_ne_none av

/-- C3 at a concrete input, in the zone of Madrid across the transition of
2024-03-31: Friday and Monday open from 09:00 to 10:30, 30 minutes, buffer 15, the
range from Friday 03-29 to Tuesday 04-02. The Friday slots start at 08:00 and 08:45
UTC, the Monday slots at 07:00 and 07:45 UTC. -/
theorem C3_exact_length_and_open_weekday_witness :
    getAvailableSlots (madridHost thursdayMarch) fridayMonday [] 10 (some fridayMadrid)
        (some tuesdayMadrid) 30
      = some [⟨1711699200000, 1711701000000⟩, ⟨1711701900000, 1711703700000⟩,
          ⟨1711954800000, 1711956600000⟩, ⟨1711957500000, 1711959300000⟩] ∧
    (∀ s ∈ [(⟨1711699200000, 1711701000000⟩ : Slot), ⟨1711701900000, 1711703700000⟩,
        ⟨1711954800000, 1711956600000⟩, ⟨1711957500000, 1711959300000⟩], s.end_ - s.start = 30 * 60000) ∧
    ∀ s ∈ [(⟨1711699200000, 1711701000000⟩ : Slot), ⟨1711701900000, 1711703700000⟩,
        ⟨1711954800000, 1711956600000⟩, ⟨1711957500000, 1711959300000⟩],
      fridayMonday.availability.entry (weekDay (localTime (madridHost thursdayMarch) s.start))
        ≠ none :=
  have h := C3_exact_length_and_open_weekday (madridHost thursdayMarch) fridayMonday [] 10
    (some fridayMadrid) (some tuesdayMadrid) 30 _ (by decide)
  ⟨by decide, h.1, h.2 (madridHost_wholeDays thursdayMarch) (by decide) (by decide)⟩

/-- C8, as stated, fails: asked for Monday 10:00 to 10:30, the code returns the
slot of 09:00, before the range, and the slot of 10:30, not before its end. -/
theorem C8_counterexample_slots_outside_range :
    getAvailableSlots (utcHost sundayMorning) shortMonday [] 10 (some monday10h)
        (some monday10h30) 30
      = some [⟨1704099600000, 1704101400000⟩, ⟨1704102300000, 1704104100000⟩,
          ⟨1704105000000, 1704106800000⟩] ∧
    (1704099600000 : Int) < monday10h ∧ ¬ ((1704105000000 : Int) < monday10h30) := by
  decide

/-- The second half of C8 fails as well: asked for Monday 15:00 to Tuesday 10:00, the
code visits Monday only, although Tuesday opens at 09:00, before the end of the range
and after the clock. -/
theorem tuesday_is_skipped :
    getAvailableSlots (utcHost sundayMorning) DEFAULT_CONFIG [] 20 (some monday15h)
        (some tuesday10h) 30
      = getAvailableSlots (utcHost sundayMorning) DEFAULT_CONFIG [] 20 (some monday0)
        (some tuesday0) 30 ∧
    setHours (utcHost sundayMorning) (some tuesday10h) (some 9) (some 0)
      = some 1704186000000 ∧
    (1704186000000 : Int) < tuesday10h := by
  decide

/-- C8, amended. In a time zone with whole local days, when every non-null entry of
the template lies within its day and `duration + bufferTime` is not negative, every
slot returned by `getAvailableSlots` starts on a local calendar day that is not
before the local day of `startDate` and not after the local day of the last
millisecond before `endDate`. -/
theorem C8_slots_within_the_days_of_the_range (host : Host) (config : Config)
    (bookings : List Booking) (fuel : Nat) (startDate endDate : JSDate) (duration : Int)
    (slots : List Slot) (hzone : host.wholeDays)
    (htemplate : templateInDay host config = true)
    (hstep : 0 ≤ duration + config.bufferTime)
    (h : getAvailableSlots host config bookings fuel startDate endDate duration = some slots) :
    ∀ s ∈ slots, ∃ t e, startDate = some t ∧ endDate = some e ∧
      day (localTime host t) ≤ day (localTime host s.start) ∧
      day (localTime host s.start) ≤ day (localTime host (e - 1)) := by
  intro s hs
  obtain ⟨reads, hr⟩ := getAvailableSlots_eq_some h
  obtain ⟨u, e, n, hu, he, hlt, hday⟩ := getAvailableSlotsAux_mem _ _ _ _ _ _ _ _ hr s hs
  have hsame := hday.same_day hzone htemplate hstep
  cases startDate with
  | none => rw [nthCurrent_none] at hu; cases hu
  | some t =>
    refine ⟨t, e, rfl, he, ?_, ?_⟩
    · rw [hsame]
      exact nthCurrent_later_day hzone n t u hu
    · rw [hsame]
      exact day_localTime_mono hzone (by omega)

/-- C8 at a concrete input, in the zone of Madrid across the transition of
2024-03-31: the range from Friday 03-29 00:00 to Tuesday 04-02 00:00 local time; the
four slots start on Friday and on Monday. -/
theorem C8_slots_within_the_days_of_the_range_witness :
    getAvailableSlots (madridHost thursdayMarch) fridayMonday [] 10 (some fridayMadrid)
        (some tuesdayMadrid) 30
      = some [⟨1711699200000, 1711701000000⟩, ⟨1711701900000, 1711703700000⟩,
          ⟨1711954800000, 1711956600000⟩, ⟨1711957500000, 1711959300000⟩] ∧
    ∀ s ∈ [(⟨1711699200000, 1711701000000⟩ : Slot), ⟨1711701900000, 1711703700000⟩,
        ⟨1711954800000, 1711956600000⟩, ⟨1711957500000, 1711959300000⟩],
      ∃ t e, some fridayMadrid = some t ∧ some tuesdayMadrid = some e ∧
        day (localTime (madridHost thursdayMarch) t)
          ≤ day (localTime (madridHost thursdayMarch) s.start) ∧
        day (localTime (madridHost thursdayMarch) s.start)
          ≤ day (localTime (madridHost thursdayMarch) (e - 1)) :=
  ⟨by decide,
    C8_slots_within_the_days_of_the_range (madridHost thursdayMarch) fridayMonday [] 10
      (some fridayMadrid) (some tuesdayMadrid) 30 _ (madridHost_wholeDays thursdayMarch)
      (by decide) (by decide) (by decide)⟩

/-! ## Slots among themselves -/

/-- The inner loop keeps the array in order: each slot ends at or before the start
of the next one, and all end at or before `bound`, when the day closes at or before
`bound`, every slot already there ends at or before the first candidate, and the
duration and the buffer are not negative. -/
theorem slotLoop_ordered (host : Host) (config : Config) (bookings : List Booking)
    (duration : Int) (hduration : 0 ≤ duration) (hbuffer : 0 ≤ config.bufferTime)
    (de bound : Int) (hbound : de ≤ bound) (fuel : Nat) (t0 : Int) (acc r : Acc)
    (hord : acc.1.Pairwise fun a b => a.end_ ≤ b.start)
    (hbefore : ∀ x ∈ acc.1, x.end_ ≤ t0) (hbefore1 : ∀ x ∈ acc.1, x.end_ ≤ bound)
    (h : slotLoop host config bookings duration (some de) fuel (some t0) acc = some r) :
    (r.1.Pairwise fun a b => a.end_ ≤ b.start) ∧ ∀ x ∈ r.1, x.end_ ≤ bound := by
  have key := slotLoop_invariant host config bookings duration (some de)
    (fun s a => (a.1.Pairwise fun a b => a.end_ ≤ b.start) ∧ (∀ x ∈ a.1, x.end_ ≤ bound) ∧
      ∀ c, s = some c → ∀ x ∈ a.1, x.end_ ≤ c)
    (by
      intro t de1 a hde htde hinv
      obtain ⟨hp, hb, hc⟩ := hinv
      have hde1 : de1 = de := (Option.some.inj hde).symm
      subst hde1
      have hct := hc t rfl
      rcases testCandidate_cases host bookings duration (some de1) (some t) a with
        ⟨h1, _, _⟩ | ⟨s, de2, hs, hde2, hfit, _, _, hres⟩
      · rw [h1]
        refine ⟨hp, hb, ?_⟩
        intro c hcn x hx
        obtain ⟨t1, ht1, hc1⟩ := plusMs_eq_some hcn
        cases ht1
        have := hct x hx
        have hstep : 0 ≤ (duration + config.bufferTime) * 60000 :=
          mul_nonneg (add_nonneg hduration hbuffer) (by norm_num)
        omega
      · cases hs
        cases hde2
        rw [hres]
        refine ⟨?_, ?_, ?_⟩
        · rw [List.pairwise_append]
          refine ⟨hp, List.pairwise_singleton _ _, ?_⟩
          intro x hx y hy
          rw [List.mem_singleton] at hy
          subst hy
          exact hct x hx
        · intro x hx
          rcases List.mem_append.1 hx with hx | hx
          · exact hb x hx
          · rw [List.mem_singleton] at hx
            subst hx
            show t + duration * 60000 ≤ bound
            omega
        · intro c hcn x hx
          obtain ⟨t1, ht1, hc1⟩ := plusMs_eq_some hcn
          cases ht1
          rcases List.mem_append.1 hx with hx | hx
          · have := hct x hx
            have hstep : 0 ≤ (duration + config.bufferTime) * 60000 :=
              mul_nonneg (add_nonneg hduration hbuffer) (by norm_num)
            omega
          · rw [List.mem_singleton] at hx
            subst hx
            show t + duration * 60000 ≤ c
            omega)
    fuel (some t0) acc r
    ⟨hord, hbefore1, fun c hc x hx => by
      cases hc
      exact hbefore x hx⟩ h
  obtain ⟨_, _, hp, hb, _⟩ := key
  exact ⟨hp, hb⟩

/-- One day keeps the array in order: slots that end at or before the local midnight
of `t` are followed by slots that end at or before the next local midnight. -/
theorem daySlots_ordered (host : Host) (config : Config) (bookings : List Booking)
    (duration : Int) (hduration : 0 ≤ duration) (hbuffer : 0 ≤ config.bufferTime)
    (hzone : host.wholeDays) (htemplate : templateInDay host config = true) (fuel : Nat)
    (t : Int) (acc r : Acc)
    (hord : acc.1.Pairwise fun a b => a.end_ ≤ b.start)
    (hbefore : ∀ x ∈ acc.1, x.end_ ≤ midnight host (day (localTime host t)))
    (h : daySlots host config bookings duration fuel (some t) acc = some r) :
    (r.1.Pairwise fun a b => a.end_ ≤ b.start) ∧
      ∀ x ∈ r.1, x.end_ ≤ midnight host (day (localTime host t) + 1) := by
  have hweak : ∀ x ∈ acc.1, x.end_ ≤ midnight host (day (localTime host t) + 1) := by
    intro x hx
    exact le_trans (hbefore x hx) (hzone.1 _)
  unfold daySlots at h
  simp only at h
  cases hav : config.availability.entry (weekDay (localTime host t)) with
  | none =>
    rw [hav] at h
    cases h
    exact ⟨hord, hweak⟩
  | some av =>
    rw [hav] at h
    dsimp only at h
    cases hlt : dateLt
        (setHours host (some t) (hourMin host av.start).1 (hourMin host av.start).2)
        (setHours host (some t) (hourMin host av.end_).1 (hourMin host av.end_).2) with
    | false =>
      rw [slotLoop_exit _ _ _ _ _ _ _ _ hlt] at h
      cases h
      exact ⟨hord, hweak⟩
    | true =>
      obtain ⟨ds, de, hds, hde, _⟩ := dateLt_eq_true hlt
      obtain ⟨h1, h2⟩ := setHours_within_day hzone (inDay_of_template htemplate hav) hds hde
      rw [hds, hde] at h
      exact slotLoop_ordered host config bookings duration hduration hbuffer de _ h2 fuel ds
        acc r hord (fun x hx => le_trans (hbefore x hx) h1) hweak h

/-- The outer loop keeps the array in order. -/
theorem dayLoop_ordered (host : Host) (config : Config) (bookings : List Booking)
    (duration : Int) (hduration : 0 ≤ duration) (hbuffer : 0 ≤ config.bufferTime)
    (hzone : host.wholeDays) (htemplate : templateInDay host config = true)
    (endDate : JSDate) (innerFuel fuel : Nat) (current : JSDate) (r : Acc)
    (h : dayLoop host config bookings duration endDate innerFuel fuel current ([], 0) = some r) :
    r.1.Pairwise fun a b => a.end_ ≤ b.start := by
  have key := dayLoop_invariant host config bookings duration endDate innerFuel
    (fun s a => (a.1.Pairwise fun a b => a.end_ ≤ b.start) ∧
      ∀ c, s = some c → ∀ x ∈ a.1, x.end_ ≤ midnight host (day (localTime host c)))
    (by
      intro t e a a1 _ _ hinv hday
      obtain ⟨hp, hc⟩ := hinv
      obtain ⟨hp1, hb1⟩ := daySlots_ordered host config bookings duration hduration hbuffer
        hzone htemplate innerFuel t a a1 hp (hc t rfl) hday
      refine ⟨hp1, ?_⟩
      intro c hcn x hx
      exact le_trans (hb1 x hx) (midnight_mono hzone (setDateNext_later_day hzone hcn)))
    fuel current ([], 0) r
    ⟨List.Pairwise.nil, fun c _ x hx => by cases hx⟩ h
  obtain ⟨_, _, hp, _⟩ := key
  exact hp

theorem not_overlaps_symm : Symmetric fun a b : Slot => ¬ overlaps a b := by
  intro a b hab hba
  exact hab ⟨hba.2, hba.1⟩

/-- C2, as stated, fails: the buffer is 0, Monday is open from 23:00 to 26:00 and
Tuesday from 00:30 to 02:00; the Monday slot from Tuesday 00:00 to 01:00 and the
Tuesday slot from 00:30 to 01:30 are both returned, and they overlap. -/
theorem C2_counterexample_days_run_into_each_other :
    0 ≤ mondayIntoTuesday.bufferTime ∧
    getAvailableSlots (utcHost sundayMorning) mondayIntoTuesday [] 10 (some monday0)
        (some wednesday0) 60
      = some [⟨1704150000000, 1704153600000⟩, ⟨1704153600000, 1704157200000⟩,
          ⟨1704157200000, 1704160800000⟩, ⟨1704155400000, 1704159000000⟩] ∧
    (⟨1704153600000, 1704157200000⟩ : Slot) ≠ ⟨1704155400000, 1704159000000⟩ ∧
    overlaps ⟨1704153600000, 1704157200000⟩ ⟨1704155400000, 1704159000000⟩ := by
  decide

/-- C2, amended. In a time zone with whole local days, when `bufferTime` is not
negative and every non-null entry of the template lies within its day (start at or
after 00:00, end at or before 24:00), no two slots returned by `getAvailableSlots`
overlap, whether of one day or of two: neither two slots at different positions of
the array nor two different slots. -/
theorem C2_no_two_slots_overlap (host : Host) (config : Config) (bookings : List Booking)
    (fuel : Nat) (startDate endDate : JSDate) (duration : Int) (slots : List Slot)
    (hzone : host.wholeDays) (hbuffer : 0 ≤ config.bufferTime)
    (htemplate : templateInDay host config = true)
    (h : getAvailableSlots host config bookings fuel startDate endDate duration = some slots) :
    (slots.Pairwise fun a b => ¬ overlaps a b) ∧
    ∀ a ∈ slots, ∀ b ∈ slots, a ≠ b → ¬ overlaps a b := by
  obtain ⟨reads, hr⟩ := getAvailableSlots_eq_some h
  have hp : slots.Pairwise fun a b => ¬ overlaps a b := by
    by_cases hd : 0 ≤ duration
    · have hord := dayLoop_ordered host config bookings duration hd hbuffer hzone htemplate
        endDate fuel fuel startDate (slots, reads) hr
      refine hord.imp ?_
      intro a b hab hov
      unfold overlaps at hov
      omega
    · apply List.pairwise_of_forall_mem_list
      intro a ha b hb hov
      obtain ⟨_, _, _, _, _, _, _, _, _, _, _, _, _, _, _, hlena, _⟩ :=
        getAvailableSlotsAux_mem _ _ _ _ _ _ _ _ hr a ha
      obtain ⟨_, _, _, _, _, _, _, _, _, _, _, _, _, _, _, hlenb, _⟩ :=
        getAvailableSlotsAux_mem _ _ _ _ _ _ _ _ hr b hb
      unfold overlaps at hov
      omega
  exact ⟨hp, fun a ha b hb hne => hp.forall not_overlaps_symm ha hb hne⟩

/-- C2 at a concrete input, in the zone of Madrid across the transition of
2024-03-31: Friday and Monday open from 09:00 to 10:30, 30 minutes, buffer 15, the
range from Friday 03-29 to Tuesday 04-02. -/
theorem C2_no_two_slots_overlap_witness :
    getAvailableSlots (madridHost thursdayMarch) fridayMonday [] 10 (some fridayMadrid)
        (some tuesdayMadrid) 30
      = some [⟨1711699200000, 1711701000000⟩, ⟨1711701900000, 1711703700000⟩,
          ⟨1711954800000, 1711956600000⟩, ⟨1711957500000, 1711959300000⟩] ∧
    ([(⟨1711699200000, 1711701000000⟩ : Slot), ⟨1711701900000, 1711703700000⟩,
        ⟨1711954800000, 1711956600000⟩, ⟨1711957500000, 1711959300000⟩].Pairwise
      fun a b => ¬ overlaps a b) ∧
    ∀ a ∈ [(⟨1711699200000, 1711701000000⟩ : Slot), ⟨1711701900000, 1711703700000⟩,
        ⟨1711954800000, 1711956600000⟩, ⟨1711957500000, 1711959300000⟩],
      ∀ b ∈ [(⟨1711699200000, 1711701000000⟩ : Slot), ⟨1711701900000, 1711703700000⟩,
        ⟨1711954800000, 1711956600000⟩, ⟨1711957500000, 1711959300000⟩],
      a ≠ b → ¬ overlaps a b :=
  ⟨by decide,
    C2_no_two_slots_overlap (madridHost thursdayMarch) fridayMonday [] 10 (some fridayMadrid)
      (some tuesdayMadrid) 30 _ (madridHost_wholeDays thursdayMarch) (by decide) (by decide)
      (by decide)⟩

/-! ## Termination -/

/-- With a step of zero minutes the inner loop tests the same candidate for ever. -/
theorem slotLoop_never_returns (host : Host) (config : Config) (bookings : List Booking)
    (duration : Int) (dayEnd : JSDate) (hstep : duration + config.bufferTime = 0)
    (t : Int) (hvalid : timeClip t = some t) (hlt : dateLt (some t) dayEnd = true) :
    ∀ (fuel : Nat) (acc : Acc),
      slotLoop host config bookings duration dayEnd fuel (some t) acc = none := by
  intro fuel
  induction fuel with
  | zero => intro acc; exact slotLoop_zero _ _ _ _ _ _ _ hlt
  | succ fuel ih =>
    intro acc
    rw [slotLoop_succ _ _ _ _ _ _ _ _ hlt, hstep]
    have : plusMs (some t) (0 * 60000) = some t := by
      simp only [plusMs, Option.some_bind, zero_mul, add_zero]
      exact hvalid
    rw [this]
    exact ih _

/-- On an open day whose opening is before its closing, a step of zero minutes
keeps the body of the outer loop from returning. -/
theorem daySlots_never_returns (host : Host) (config : Config) (bookings : List Booking)
    (duration : Int) (hstep : duration + config.bufferTime = 0) (t : Int)
    (av : DayAvailability)
    (hav : config.availability.entry (weekDay (localTime host t)) = some av)
    (hlt : dateLt
      (setHours host (some t) (hourMin host av.start).1 (hourMin host av.start).2)
      (setHours host (some t) (hourMin host av.end_).1 (hourMin host av.end_).2)
        = true) (fuel : Nat) (acc : Acc) :
    daySlots host config bookings duration fuel (some t) acc = none := by
  unfold daySlots
  simp only
  rw [hav]
  dsimp only
  obtain ⟨ds, de, hds, hde, _⟩ := dateLt_eq_true hlt
  have hvalid : timeClip ds = some ds := by
    have hds1 := hds
    cases h1 : (hourMin host av.start).1 <;> cases h2 : (hourMin host av.start).2 <;>
      rw [h1, h2] at hds1 <;> simp only [setHours] at hds1
    · cases hds1
    · cases hds1
    · cases hds1
    · obtain ⟨e, r1, r2⟩ := timeClip_eq_some hds1
      rw [e]
      exact timeClip_of_range r1 r2
  rw [hds] at hlt ⊢
  exact slotLoop_never_returns host config bookings duration _ hstep ds hvalid hlt fuel acc

/-- When `duration + bufferTime` is zero and the first day of the range is open with
its opening before its closing, `getAvailableSlots` does not return, whatever the
fuel. -/
theorem getAvailableSlots_never_returns (host : Host) (config : Config)
    (bookings : List Booking) (duration : Int) (hstep : duration + config.bufferTime = 0)
    (t : Int) (endDate : JSDate) (hrange : dateLt (some t) endDate = true)
    (av : DayAvailability)
    (hav : config.availability.entry (weekDay (localTime host t)) = some av)
    (hlt : dateLt
      (setHours host (some t) (hourMin host av.start).1 (hourMin host av.start).2)
      (setHours host (some t) (hourMin host av.end_).1 (hourMin host av.end_).2)
        = true) (fuel : Nat) :
    getAvailableSlots host config bookings fuel (some t) endDate duration = none := by
  unfold getAvailableSlots getAvailableSlotsAux
  cases fuel with
  | zero => rw [dayLoop_zero _ _ _ _ _ _ _ _ hrange]; rfl
  | succ fuel =>
    rw [dayLoop_succ _ _ _ _ _ _ _ _ _ hrange,
      daySlots_never_returns host config bookings duration hstep t av hav hlt]
    rfl

/-- C9 fails on the request `GET /api/slots?duration=-15` with the default
configuration: `parseInt` gives -15, the buffer is 15, the step is zero, and on
Monday 2024-01-01, open from 09:00 to 17:00, the inner loop never ends: no amount of
fuel makes `getAvailableSlots` return. -/
theorem C9_negative_duration_never_returns (fuel : Nat) :
    requestedDuration (some (-15)) DEFAULT_CONFIG = -15 ∧
    getAvailableSlots (utcHost sundayMorning) DEFAULT_CONFIG [] fuel (some monday0)
      (some tuesday0) (requestedDuration (some (-15)) DEFAULT_CONFIG) = none :=
  ⟨by decide,
    getAvailableSlots_never_returns (utcHost sundayMorning) DEFAULT_CONFIG [] _ (by decide)
      monday0 (some tuesday0) (by decide) ⟨"09:00", "17:00"⟩ (by decide) (by decide) fuel⟩

theorem plusMs_range {d : JSDate} {ms u : Int} (h : plusMs d ms = some u) :
    -maxTime ≤ u ∧ u ≤ maxTime := by
  cases d with
  | none => simp [plusMs] at h
  | some t =>
    simp only [plusMs, Option.some_bind] at h
    obtain ⟨e, r1, r2⟩ := timeClip_eq_some h
    rw [e]
    exact ⟨r1, r2⟩

theorem setHours_range {host : Host} {d : JSDate} {hour min : Option Int} {u : Int}
    (h : setHours host d hour min = some u) : -maxTime ≤ u ∧ u ≤ maxTime := by
  cases d <;> cases hour <;> cases min <;> simp only [setHours] at h
  · cases h
  · cases h
  · cases h
  · cases h
  · cases h
  · cases h
  · cases h
  · obtain ⟨e, r1, r2⟩ := timeClip_eq_some h
    rw [e]
    exact ⟨r1, r2⟩

/-- With a positive step the inner loop returns once the fuel covers the distance to
the end of the day. -/
theorem slotLoop_returns_of_pos (host : Host) (config : Config) (bookings : List Booking)
    (duration : Int) (dayEnd : JSDate) :
    ∀ (fuel : Nat) (slotStart : JSDate) (acc : Acc),
      (∀ t de, slotStart = some t → dayEnd = some de →
        de - t ≤ fuel * ((duration + config.bufferTime) * 60000)) →
      ∃ r, slotLoop host config bookings duration dayEnd fuel slotStart acc = some r := by
  intro fuel
  induction fuel with
  | zero =>
    intro slotStart acc hfuel
    cases hlt : dateLt slotStart dayEnd with
    | false => exact ⟨acc, slotLoop_exit _ _ _ _ _ _ _ _ hlt⟩
    | true =>
      obtain ⟨t, de, hs, hde, htde⟩ := dateLt_eq_true hlt
      have := hfuel t de hs hde
      simp only [Nat.cast_zero, zero_mul] at this
      omega
  | succ fuel ih =>
    intro slotStart acc hfuel
    cases hlt : dateLt slotStart dayEnd with
    | false => exact ⟨acc, slotLoop_exit _ _ _ _ _ _ _ _ hlt⟩
    | true =>
      obtain ⟨t, de, hs, hde, htde⟩ := dateLt_eq_true hlt
      rw [slotLoop_succ _ _ _ _ _ _ _ _ hlt]
      apply ih
      intro t1 de1 hs1 hde1
      subst hs
      obtain ⟨t2, ht2, hu⟩ := plusMs_eq_some hs1
      cases ht2
      rw [hde] at hde1
      cases hde1
      have h1 := hfuel t de rfl hde
      have h2 : ((fuel + 1 : Nat) : Int) * ((duration + config.bufferTime) * 60000)
          = fuel * ((duration + config.bufferTime) * 60000)
            + (duration + config.bufferTime) * 60000 := by
        push_cast
        ring
      rw [h2] at h1
      rw [hu]
      linarith

/-- With a negative step the inner loop returns once the fuel covers the distance
down to the smallest time value. -/
theorem slotLoop_returns_of_neg (host : Host) (config : Config) (bookings : List Booking)
    (duration : Int) (dayEnd : JSDate) :
    ∀ (fuel : Nat) (slotStart : JSDate) (acc : Acc),
      (∀ t, slotStart = some t → -maxTime ≤ t ∧
        t + maxTime < fuel * (-((duration + config.bufferTime) * 60000))) →
      ∃ r, slotLoop host config bookings duration dayEnd fuel slotStart acc = some r := by
  intro fuel
  induction fuel with
  | zero =>
    intro slotStart acc hfuel
    cases hlt : dateLt slotStart dayEnd with
    | false => exact ⟨acc, slotLoop_exit _ _ _ _ _ _ _ _ hlt⟩
    | true =>
      obtain ⟨t, de, hs, hde, htde⟩ := dateLt_eq_true hlt
      have := hfuel t hs
      simp only [Nat.cast_zero, zero_mul] at this
      omega
  | succ fuel ih =>
    intro slotStart acc hfuel
    cases hlt : dateLt slotStart dayEnd with
    | false => exact ⟨acc, slotLoop_exit _ _ _ _ _ _ _ _ hlt⟩
    | true =>
      obtain ⟨t, de, hs, hde, htde⟩ := dateLt_eq_true hlt
      rw [slotLoop_succ _ _ _ _ _ _ _ _ hlt]
      apply ih
      intro t1 hs1
      subst hs
      obtain ⟨r1, _⟩ := plusMs_range hs1
      obtain ⟨t2, ht2, hu⟩ := plusMs_eq_some hs1
      cases ht2
      have h1 := (hfuel t rfl).2
      have h2 : ((fuel + 1 : Nat) : Int) * (-((duration + config.bufferTime) * 60000))
          = fuel * (-((duration + config.bufferTime) * 60000))
            - (duration + config.bufferTime) * 60000 := by
        push_cast
        ring
      rw [h2] at h1
      refine ⟨r1, ?_⟩
      rw [hu]
      linarith

/-- With a step other than zero and `enoughFuel`, the body of the outer loop
returns. -/
theorem daySlots_returns (host : Host) (config : Config) (bookings : List Booking)
    (duration : Int) (hstep : duration + config.bufferTime ≠ 0) (fuel : Nat)
    (hfuel : enoughFuel ≤ fuel) (current : JSDate) (acc : Acc) :
    ∃ r, daySlots host config bookings duration fuel current acc = some r := by
  have hN : (288000000001 : Int) ≤ (fuel : Int) := by
    have : ((enoughFuel : Nat) : Int) ≤ (fuel : Int) := Int.ofNat_le.2 hfuel
    simpa [enoughFuel] using this
  have hf0 : (0 : Int) ≤ (fuel : Int) := Int.ofNat_nonneg fuel
  unfold daySlots
  cases current with
  | none => exact ⟨acc, rfl⟩
  | some t =>
    simp only
    cases hav : config.availability.entry (weekDay (localTime host t)) with
    | none => exact ⟨acc, rfl⟩
    | some av =>
      dsimp only
      rcases lt_or_gt_of_ne hstep with hneg | hpos
      · apply slotLoop_returns_of_neg
        intro ds hds
        obtain ⟨r1, r2⟩ := setHours_range hds
        refine ⟨r1, ?_⟩
        have h60 : (60000 : Int) ≤ -((duration + config.bufferTime) * 60000) := by
          have : duration + config.bufferTime ≤ -1 := by omega
          linarith
        have hmul : (288000000001 : Int) * 60000
            ≤ fuel * (-((duration + config.bufferTime) * 60000)) :=
          mul_le_mul hN h60 (by norm_num) hf0
        unfold maxTime at *
        linarith
      · apply slotLoop_returns_of_pos
        intro ds de hds hde
        obtain ⟨r1, _⟩ := setHours_range hds
        obtain ⟨_, r4⟩ := setHours_range hde
        have h60 : (60000 : Int) ≤ (duration + config.bufferTime) * 60000 := by
          have : 1 ≤ duration + config.bufferTime := by omega
          linarith
        have hmul : (288000000001 : Int) * 60000
            ≤ fuel * ((duration + config.bufferTime) * 60000) :=
          mul_le_mul hN h60 (by norm_num) hf0
        unfold maxTime at *
        linarith

/-- In a zone with whole local days the outer loop returns once its fuel covers the
local days up to `endDate`, when its body returns. -/
theorem dayLoop_returns (host : Host) (config : Config) (bookings : List Booking)
    (duration : Int) (endDate : JSDate) (innerFuel : Nat) (hzone : host.wholeDays)
    (hbody : ∀ current acc,
      ∃ r, daySlots host config bookings duration innerFuel current acc = some r) :
    ∀ (fuel : Nat) (current : JSDate) (acc : Acc),
      (∀ t e, current = some t → endDate = some e →
        day (localTime host (e - 1)) - day (localTime host t) < fuel) →
      ∃ r, dayLoop host config bookings duration endDate innerFuel fuel current acc
        = some r := by
  intro fuel
  induction fuel with
  | zero =>
    intro current acc hfuel
    cases hlt : dateLt current endDate with
    | false => exact ⟨acc, dayLoop_exit _ _ _ _ _ _ _ _ _ hlt⟩
    | true =>
      obtain ⟨t, e, hs, he, hte⟩ := dateLt_eq_true hlt
      have h1 := hfuel t e hs he
      have h2 := day_localTime_mono hzone (show t ≤ e - 1 by omega)
      simp only [Nat.cast_zero] at h1
      omega
  | succ fuel ih =>
    intro current acc hfuel
    cases hlt : dateLt current endDate with
    | false => exact ⟨acc, dayLoop_exit _ _ _ _ _ _ _ _ _ hlt⟩
    | true =>
      obtain ⟨t, e, hs, he, hte⟩ := dateLt_eq_true hlt
      rw [dayLoop_succ _ _ _ _ _ _ _ _ _ hlt]
      obtain ⟨acc1, hacc1⟩ := hbody current acc
      rw [hacc1]
      apply ih
      intro t1 e1 hs1 he1
      subst hs
      rw [he] at he1
      cases he1
      have h1 := hfuel t e rfl he
      have h2 := setDateNext_later_day hzone hs1
      push_cast at h1
      omega

/-- In a zone with whole local days, whenever `duration + bufferTime` is not zero,
`getAvailableSlots` returns: there is an amount of fuel with which, and with any
larger one, the result is a list. -/
theorem getAvailableSlots_returns (host : Host) (config : Config) (bookings : List Booking)
    (startDate endDate : JSDate) (duration : Int) (hzone : host.wholeDays)
    (hstep : duration + config.bufferTime ≠ 0) :
    ∃ fuel0, ∀ fuel, fuel0 ≤ fuel →
      ∃ slots, getAvailableSlots host config bookings fuel startDate endDate duration
        = some slots := by
  have main : ∀ fuel, enoughFuel ≤ fuel →
      (∀ t e, startDate = some t → endDate = some e →
        day (localTime host (e - 1)) - day (localTime host t) < fuel) →
      ∃ slots, getAvailableSlots host config bookings fuel startDate endDate duration
        = some slots := by
    intro fuel h1 h2
    obtain ⟨r, hr⟩ := dayLoop_returns host config bookings duration endDate fuel hzone
      (fun current acc => daySlots_returns host config bookings duration hstep fuel h1
        current acc) fuel startDate ([], 0) h2
    refine ⟨r.1, ?_⟩
    unfold getAvailableSlots getAvailableSlotsAux
    rw [hr]
    rfl
  cases startDate with
  | none => exact ⟨enoughFuel, fun fuel h => main fuel h (fun t e ht _ => by cases ht)⟩
  | some t =>
    cases endDate with
    | none => exact ⟨enoughFuel, fun fuel h => main fuel h (fun t e _ he => by cases he)⟩
    | some e =>
      refine ⟨enoughFuel
        + (day (localTime host (e - 1)) - day (localTime host t) + 1).toNat,
        fun fuel h => main fuel (by omega) ?_⟩
      intro t1 e1 ht he
      cases ht
      cases he
      have h2 := Int.self_le_toNat (day (localTime host (e - 1)) - day (localTime host t) + 1)
      omega

/-! ## The candidates of one day -/

theorem readsBefore_succ (host : Host) (bookings : List Booking)
    (duration stepMs dayStart dayEnd : Int) (k : Nat) :
    readsBefore host bookings duration stepMs dayStart dayEnd (k + 1)
      = readsBefore host bookings duration stepMs dayStart dayEnd k
        + (if acceptable host bookings duration dayEnd (dayStart + k * stepMs) = true
            then 1 else 0) := by
  unfold readsBefore
  rw [List.range_succ, List.filter_append, List.length_append]
  congr 1
  by_cases h : acceptable host bookings duration dayEnd (dayStart + k * stepMs) = true
  · simp [h]
  · simp [h]

/-- The test of the code on the bookings, in terms of the overlap test of the
specification. -/
theorem isBooked_eq_any (host : Host) (bookings : List Booking) (s e : Int) :
    isBooked host bookings (some s) (some e)
      = bookings.any fun b => overlapsBooking host b s e := by
  unfold isBooked
  congr 1
  funext b
  unfold overlapsBooking
  cases host.newDate b.startTime <;> cases host.newDate b.endTime <;>
    simp [dateLt, and_comm]

/-- The effect of testing the candidate that starts at `s`, in terms of `acceptable`
and of the clock. -/
theorem testCandidate_spec (host : Host) (bookings : List Booking) (duration de s : Int)
    (hde : de ≤ maxTime) (acc : Acc) :
    testCandidate host bookings duration (some de) (some s) acc
      = (acc.1 ++ (if acceptable host bookings duration de s = true ∧ host.clock acc.2 < s
            then [⟨s, s + duration * 60000⟩] else []),
          acc.2 + (if acceptable host bookings duration de s = true then 1 else 0)) := by
  unfold testCandidate acceptable
  simp only [plusMs, Option.some_bind]
  by_cases hr : -maxTime ≤ s + duration * 60000 ∧ s + duration * 60000 ≤ maxTime
  · rw [timeClip_of_range hr.1 hr.2, isBooked_eq_any]
    by_cases hfit : s + duration * 60000 ≤ de
    · by_cases hany : (bookings.any fun b =>
          overlapsBooking host b s (s + duration * 60000)) = true
      · have hall : (bookings.all fun b =>
            !overlapsBooking host b s (s + duration * 60000)) = false := by
          rw [← Bool.not_eq_true, List.all_eq_true]
          rw [List.any_eq_true] at hany
          obtain ⟨b, hb, hov⟩ := hany
          intro hcon
          have := hcon b hb
          simp [hov] at this
        simp [dateLe, hfit, hany, hall, hr.1]
      · have hall : (bookings.all fun b =>
            !overlapsBooking host b s (s + duration * 60000)) = true := by
          rw [List.all_eq_true]
          intro b hb
          rw [List.any_eq_true] at hany
          cases hov : overlapsBooking host b s (s + duration * 60000) with
          | false => rfl
          | true => exact absurd ⟨b, hb, hov⟩ hany
        have hany1 : (bookings.any fun b =>
            overlapsBooking host b s (s + duration * 60000)) = false := by
          simpa using hany
        by_cases hnow : host.clock acc.2 < s
        · simp [dateLe, dateLt, hfit, hany1, hall, hr.1, hnow, push]
        · simp [dateLe, dateLt, hfit, hany1, hall, hr.1, hnow]
    · simp [dateLe, hfit]
  · have hnone : timeClip (s + duration * 60000) = none := by
      unfold timeClip
      rw [if_neg hr]
    have hno : ¬ (-maxTime ≤ s + duration * 60000 ∧ s + duration * 60000 ≤ de) := by
      intro hcon
      exact hr ⟨hcon.1, le_trans hcon.2 hde⟩
    rw [hnone]
    simp [dateLe, hno]

/-- The condition of the inner loop on a clipped candidate start. -/
theorem dateLt_timeClip (c de : Int) (hde : de ≤ maxTime) :
    dateLt (timeClip c) (some de) = decide (-maxTime ≤ c ∧ c < de) := by
  unfold timeClip
  by_cases hr : -maxTime ≤ c ∧ c ≤ maxTime
  · rw [if_pos hr]
    simp [dateLt, hr.1]
  · rw [if_neg hr]
    have : ¬ (-maxTime ≤ c ∧ c < de) := by
      intro hcon
      exact hr ⟨hcon.1, by omega⟩
    simp [dateLt, this]

/-- The inner loop, started at candidate `k` with `m` candidates left before the end
of the day, returns the slots emitted for them, in order. -/
theorem slotLoop_range (host : Host) (config : Config) (bookings : List Booking)
    (duration ds de : Int) (hde : de ≤ maxTime) (reads : Nat) :
    ∀ (m k fuel : Nat) (acc : Acc), m ≤ fuel →
      acc.2 = reads + readsBefore host bookings duration
        ((duration + config.bufferTime) * 60000) ds de k →
      (∀ j : Nat, j < m →
        -maxTime ≤ ds + ((k + j : Nat) : Int) * ((duration + config.bufferTime) * 60000) ∧
        ds + ((k + j : Nat) : Int) * ((duration + config.bufferTime) * 60000) < de) →
      ¬ (-maxTime ≤ ds + ((k + m : Nat) : Int) * ((duration + config.bufferTime) * 60000) ∧
        ds + ((k + m : Nat) : Int) * ((duration + config.bufferTime) * 60000) < de) →
      slotLoop host config bookings duration (some de) fuel
          (timeClip (ds + (k : Int) * ((duration + config.bufferTime) * 60000))) acc
        = some (acc.1 ++ (List.range' k m).filterMap (fun (i : Nat) =>
              if acceptable host bookings duration de
                    (ds + i * ((duration + config.bufferTime) * 60000)) = true ∧
                  host.clock (reads + readsBefore host bookings duration
                    ((duration + config.bufferTime) * 60000) ds de i)
                    < ds + i * ((duration + config.bufferTime) * 60000) then
                some ⟨ds + i * ((duration + config.bufferTime) * 60000),
                  ds + i * ((duration + config.bufferTime) * 60000) + duration * 60000⟩
              else none),
            reads + readsBefore host bookings duration
              ((duration + config.bufferTime) * 60000) ds de (k + m)) := by
  intro m
  induction m with
  | zero =>
    intro k fuel acc _ hreads _ hstop
    rw [Nat.add_zero] at hstop
    have hcond := dateLt_timeClip (ds + (k : Int) * ((duration + config.bufferTime) * 60000))
      de hde
    rw [decide_eq_false hstop] at hcond
    rw [slotLoop_exit _ _ _ _ _ _ _ _ hcond]
    simp only [List.range'_zero, List.filterMap_nil, List.append_nil, Nat.add_zero, ← hreads]
  | succ m ih =>
    intro k fuel acc hfuel hreads hbefore hstop
    obtain ⟨fuel, rfl⟩ : ∃ f, fuel = f + 1 := ⟨fuel - 1, by omega⟩
    have h0 := hbefore 0 (Nat.succ_pos m)
    rw [Nat.add_zero] at h0
    have hcond := dateLt_timeClip (ds + (k : Int) * ((duration + config.bufferTime) * 60000))
      de hde
    rw [decide_eq_true h0] at hcond
    rw [slotLoop_succ _ _ _ _ _ _ _ _ hcond]
    have hclip : timeClip (ds + (k : Int) * ((duration + config.bufferTime) * 60000))
        = some (ds + (k : Int) * ((duration + config.bufferTime) * 60000)) :=
      timeClip_of_range h0.1 (by omega)
    have hnext : plusMs (some (ds + (k : Int) * ((duration + config.bufferTime) * 60000)))
        ((duration + config.bufferTime) * 60000)
        = timeClip (ds + ((k + 1 : Nat) : Int) * ((duration + config.bufferTime) * 60000)) := by
      simp only [plusMs, Option.some_bind]
      congr 1
      push_cast
      ring
    rw [hclip, hnext, testCandidate_spec _ _ _ _ _ hde]
    rw [ih (k + 1) fuel _ (by omega)
      (by
        show acc.2 + _ = _
        rw [readsBefore_succ, hreads, Nat.add_assoc])
      (by
        intro j hj
        have := hbefore (j + 1) (by omega)
        rwa [show k + (j + 1) = k + 1 + j by omega] at this)
      (by rwa [show k + (m + 1) = k + 1 + m by omega] at hstop)]
    congr 1
    rw [show k + 1 + m = k + (m + 1) by omega]
    congr 1
    rw [List.range'_succ, List.filterMap_cons, hreads, List.append_assoc]
    congr 1
    by_cases hcase : acceptable host bookings duration de
        (ds + (k : Int) * ((duration + config.bufferTime) * 60000)) = true ∧
      host.clock (reads + readsBefore host bookings duration
        ((duration + config.bufferTime) * 60000) ds de k)
        < ds + (k : Int) * ((duration + config.bufferTime) * 60000)
    · rw [if_pos hcase, if_pos hcase]
      rfl
    · rw [if_neg hcase, if_neg hcase]
      rfl

/-- C10. On a visited open day with opening `dayStart` and closing `dayEnd`, let
candidate `k` start at `dayStart` plus `k` times `duration + bufferTime` minutes,
whatever the bookings, and let `n` be the first `k` whose candidate start is not a
date before `dayEnd`. With fuel for `n` iterations the body of the outer loop
returns, and it has appended to the array exactly the candidates below `n`, in
increasing `k`, that end at a date at or before `dayEnd`, overlap no booking (the
overlap test of the specification), and start after the clock reading taken at their
test; one reading is taken for each candidate that fits and overlaps no booking. -/
theorem C10_candidates_and_emitted_slots (host : Host) (config : Config)
    (bookings : List Booking) (duration : Int) (fuel : Nat) (t : Int) (av : DayAvailability)
    (acc : Acc) (dayStart dayEnd : Int) (n : Nat)
    (hav : config.availability.entry (weekDay (localTime host t)) = some av)
    (hstart : dayStartOf host t av = some dayStart)
    (hend : dayEndOf host t av = some dayEnd)
    (hbefore : ∀ k : Nat, k < n →
      -maxTime ≤ dayStart + k * ((duration + config.bufferTime) * 60000) ∧
      dayStart + k * ((duration + config.bufferTime) * 60000) < dayEnd)
    (hstop : ¬ (-maxTime ≤ dayStart + n * ((duration + config.bufferTime) * 60000) ∧
      dayStart + n * ((duration + config.bufferTime) * 60000) < dayEnd))
    (hfuel : n ≤ fuel) :
    daySlots host config bookings duration fuel (some t) acc
      = some (acc.1 ++ emittedSlots host bookings duration
            ((duration + config.bufferTime) * 60000) dayStart dayEnd acc.2 n,
          acc.2 + readsBefore host bookings duration
            ((duration + config.bufferTime) * 60000) dayStart dayEnd n) := by
  unfold dayStartOf at hstart
  unfold dayEndOf at hend
  obtain ⟨r1, r2⟩ := setHours_range hstart
  obtain ⟨_, r4⟩ := setHours_range hend
  unfold daySlots
  simp only
  rw [hav]
  dsimp only
  rw [hstart, hend]
  have key := slotLoop_range host config bookings duration dayStart dayEnd r4 acc.2 n 0 fuel
    acc hfuel
    (by simp [readsBefore])
    (by
      intro j hj
      rw [Nat.zero_add]
      exact hbefore j hj)
    (by
      rw [Nat.zero_add]
      exact hstop)
  simp only [Nat.cast_zero, zero_mul, add_zero, Nat.zero_add] at key
  rw [timeClip_of_range r1 r2] at key
  rw [key]
  unfold emittedSlots
  rw [List.range_eq_range']

/-- C10 at two concrete inputs, both on Monday 2024-01-01 under the default
configuration (09:00 to 17:00, buffer 15). First the example of the specification:
30 minutes, no bookings, the clock on Sunday; there are eleven candidates, 09:00,
09:45, and so on up to 16:30, and all eleven are returned. Then 50 minutes with a
booking from 13:00 to 14:00 and the clock at 11:30: of the eight candidates, 09:00,
10:05 and 11:10 are not after the clock, 12:15 and 13:20 overlap the booking, 16:35
would end after 17:00, and 14:25 and 15:30 are returned; five readings of the clock
are taken. -/
theorem C10_candidates_and_emitted_slots_witness :
    (daySlots (utcHost sundayMorning) DEFAULT_CONFIG [] 30 11 (some monday0) ([], 0)
      = some ([] ++ emittedSlots (utcHost sundayMorning) [] 30
            ((30 + DEFAULT_CONFIG.bufferTime) * 60000) 1704099600000 1704128400000 0 11,
          0 + readsBefore (utcHost sundayMorning) [] 30
            ((30 + DEFAULT_CONFIG.bufferTime) * 60000) 1704099600000 1704128400000 11) ∧
      emittedSlots (utcHost sundayMorning) [] 30
          ((30 + DEFAULT_CONFIG.bufferTime) * 60000) 1704099600000 1704128400000 0 11
        = [⟨1704099600000, 1704101400000⟩, ⟨1704102300000, 1704104100000⟩,
          ⟨1704105000000, 1704106800000⟩, ⟨1704107700000, 1704109500000⟩,
          ⟨1704110400000, 1704112200000⟩, ⟨1704113100000, 1704114900000⟩,
          ⟨1704115800000, 1704117600000⟩, ⟨1704118500000, 1704120300000⟩,
          ⟨1704121200000, 1704123000000⟩, ⟨1704123900000, 1704125700000⟩,
          ⟨1704126600000, 1704128400000⟩] ∧
      getAvailableSlots (utcHost sundayMorning) DEFAULT_CONFIG [] 11 (some monday0)
          (some tuesday0) 30
        = some [⟨1704099600000, 1704101400000⟩, ⟨1704102300000, 1704104100000⟩,
          ⟨1704105000000, 1704106800000⟩, ⟨1704107700000, 1704109500000⟩,
          ⟨1704110400000, 1704112200000⟩, ⟨1704113100000, 1704114900000⟩,
          ⟨1704115800000, 1704117600000⟩, ⟨1704118500000, 1704120300000⟩,
          ⟨1704121200000, 1704123000000⟩, ⟨1704123900000, 1704125700000⟩,
          ⟨1704126600000, 1704128400000⟩]) ∧
    (daySlots (utcHost monday11h30) DEFAULT_CONFIG [afternoonBooking] 50 8 (some monday0) ([], 0)
      = some ([] ++ emittedSlots (utcHost monday11h30) [afternoonBooking] 50
            ((50 + DEFAULT_CONFIG.bufferTime) * 60000) 1704099600000 1704128400000 0 8,
          0 + readsBefore (utcHost monday11h30) [afternoonBooking] 50
            ((50 + DEFAULT_CONFIG.bufferTime) * 60000) 1704099600000 1704128400000 8) ∧
      emittedSlots (utcHost monday11h30) [afternoonBooking] 50
          ((50 + DEFAULT_CONFIG.bufferTime) * 60000) 1704099600000 1704128400000 0 8
        = [⟨1704119100000, 1704122100000⟩, ⟨1704123000000, 1704126000000⟩] ∧
      readsBefore (utcHost monday11h30) [afternoonBooking] 50
          ((50 + DEFAULT_CONFIG.bufferTime) * 60000) 1704099600000 1704128400000 8 = 5 ∧
      getAvailableSlots (utcHost monday11h30) DEFAULT_CONFIG [afternoonBooking] 8 (some monday0)
          (some tuesday0) 50
        = some [⟨1704119100000, 1704122100000⟩, ⟨1704123000000, 1704126000000⟩]) :=
  ⟨⟨C10_candidates_and_emitted_slots (utcHost sundayMorning) DEFAULT_CONFIG [] 30 11 monday0
      ⟨"09:00", "17:00"⟩ ([], 0) 1704099600000 1704128400000 11 (by decide) (by decide)
      (by decide) (by decide) (by decide) (by decide),
    by decide, by decide⟩,
   ⟨C10_candidates_and_emitted_slots (utcHost monday11h30) DEFAULT_CONFIG [afternoonBooking] 50 8
      monday0 ⟨"09:00", "17:00"⟩ ([], 0) 1704099600000 1704128400000 8 (by decide) (by decide)
      (by decide) (by decide) (by decide) (by decide),
    by decide, by decide, by decide⟩⟩

/-! ## Slots and the clock -/

/-- Every slot the inner loop returns was there before or was pushed by a test the
run reaches, after the reading of that test. -/
theorem slotLoop_reached (host : Host) (config : Config) (bookings : List Booking)
    (duration : Int) (fuel : Nat) (startDate endDate dayEnd : JSDate) (n : Nat)
    (slotStart : JSDate) (acc r : Acc)
    (hreach : TestReached host config bookings duration fuel startDate endDate dayEnd
      slotStart acc)
    (h : slotLoop host config bookings duration dayEnd n slotStart acc = some r) :
    ∀ x ∈ r.1, x ∈ acc.1 ∨
      PushedAfterItsReading host config bookings duration fuel startDate endDate x := by
  have key := slotLoop_invariant host config bookings duration dayEnd
    (fun s a => TestReached host config bookings duration fuel startDate endDate dayEnd s a ∧
      ∀ x ∈ a.1, x ∈ acc.1 ∨
        PushedAfterItsReading host config bookings duration fuel startDate endDate x)
    (by
      intro t de a hde htde hinv
      obtain ⟨hr, hmem⟩ := hinv
      have hlt : dateLt (some t) dayEnd = true := by
        rw [hde]
        simp [dateLt, htde]
      refine ⟨TestReached.next hr hlt, ?_⟩
      rcases testCandidate_cases host bookings duration dayEnd (some t) a with
        ⟨h1, _, _⟩ | ⟨s, de2, hs, _, _, _, hclock, hres⟩
      · intro x hx
        rw [h1] at hx
        exact hmem x hx
      · cases hs
        intro x hx
        rw [hres] at hx
        rcases List.mem_append.1 hx with hx | hx
        · exact hmem x hx
        · rw [List.mem_singleton] at hx
          subst hx
          exact Or.inr ⟨dayEnd, a, hr, hlt, hres, hclock⟩)
    n slotStart acc r ⟨hreach, fun x hx => Or.inl hx⟩ h
  obtain ⟨_, _, _, hmem⟩ := key
  exact hmem

/-- Every slot `getAvailableSlots` returns was pushed by a test the run reaches,
after the reading of that test. -/
theorem getAvailableSlotsAux_reached (host : Host) (config : Config)
    (bookings : List Booking) (fuel : Nat) (startDate endDate : JSDate) (duration : Int)
    (r : Acc)
    (h : getAvailableSlotsAux host config bookings fuel startDate endDate duration = some r) :
    ∀ x ∈ r.1,
      PushedAfterItsReading host config bookings duration fuel startDate endDate x := by
  have key := dayLoop_invariant host config bookings duration endDate fuel
    (fun s a => DayReached host config bookings duration fuel startDate endDate s a ∧
      ∀ x ∈ a.1,
        PushedAfterItsReading host config bookings duration fuel startDate endDate x)
    (by
      intro t e a a1 he hte hinv hday
      obtain ⟨hr, hmem⟩ := hinv
      have hlt : dateLt (some t) endDate = true := by
        rw [he]
        simp [dateLt, hte]
      refine ⟨DayReached.next hr hlt hday, ?_⟩
      intro x hx
      have hday1 := hday
      unfold daySlots at hday1
      simp only at hday1
      cases hav : config.availability.entry (weekDay (localTime host t)) with
      | none =>
        rw [hav] at hday1
        cases hday1
        exact hmem x hx
      | some av =>
        rw [hav] at hday1
        dsimp only at hday1
        rcases slotLoop_reached host config bookings duration fuel startDate endDate
          (dayEndOf host t av) fuel (dayStartOf host t av) a a1
          (TestReached.first hr hlt hav) hday1 x hx with hx | hx
        · exact hmem x hx
        · exact hx)
    fuel startDate ([], 0) r ⟨DayReached.start, fun x hx => by cases hx⟩ h
  obtain ⟨_, _, _, hmem⟩ := key
  exact hmem

/-- C4. Every slot returned by `getAvailableSlots` starts strictly later than the
clock reading taken when its candidate is tested: the run reaches the test of a
candidate with that start in a state with `i` readings taken before, the test takes
reading number `i`, pushes the slot, and the slot starts after that reading. So when
no reading is earlier than the first one, every returned slot starts strictly later
than the first reading as well. -/
theorem C4_every_slot_starts_after_now (host : Host) (config : Config)
    (bookings : List Booking) (fuel : Nat) (startDate endDate : JSDate) (duration : Int)
    (slots : List Slot)
    (h : getAvailableSlots host config bookings fuel startDate endDate duration = some slots) :
    (∀ s ∈ slots, ∃ dayEnd acc,
      TestReached host config bookings duration fuel startDate endDate dayEnd
        (some s.start) acc ∧
      dateLt (some s.start) dayEnd = true ∧
      testCandidate host bookings duration dayEnd (some s.start) acc
        = (acc.1 ++ [s], acc.2 + 1) ∧
      host.clock acc.2 < s.start) ∧
    ((∀ i, host.clock 0 ≤ host.clock i) → ∀ s ∈ slots, host.clock 0 < s.start) := by
  obtain ⟨reads, hr⟩ := getAvailableSlots_eq_some h
  have hall := getAvailableSlotsAux_reached _ _ _ _ _ _ _ _ hr
  refine ⟨fun s hs => hall s hs, ?_⟩
  intro hmono s hs
  obtain ⟨_, acc, _, _, _, hc⟩ := hall s hs
  exact lt_of_le_of_lt (hmono acc.2) hc

/-- C4 at a concrete input with a clock that advances: Monday open from 09:00 to
11:00, 30 minutes, buffer 15. The candidate 09:00 is after the first reading, 08:50;
the candidate 09:45 is not after the second reading, 09:50, and is dropped; the
candidate 10:30 is after the third reading, 10:00. -/
theorem C4_every_slot_starts_after_now_witness :
    getAvailableSlots advancingHost shortMonday [] 10 (some monday0) (some tuesday0) 30
      = some [⟨1704099600000, 1704101400000⟩, ⟨1704105000000, 1704106800000⟩] ∧
    (∀ s ∈ [(⟨1704099600000, 1704101400000⟩ : Slot), ⟨1704105000000, 1704106800000⟩],
      ∃ dayEnd acc,
        TestReached advancingHost shortMonday [] 30 10 (some monday0) (some tuesday0) dayEnd
          (some s.start) acc ∧
        dateLt (some s.start) dayEnd = true ∧
        testCandidate advancingHost [] 30 dayEnd (some s.start) acc
          = (acc.1 ++ [s], acc.2 + 1) ∧
        advancingHost.clock acc.2 < s.start) ∧
    ((∀ i, advancingHost.clock 0 ≤ advancingHost.clock i) →
      ∀ s ∈ [(⟨1704099600000, 1704101400000⟩ : Slot), ⟨1704105000000, 1704106800000⟩],
        advancingHost.clock 0 < s.start) :=
  have h := C4_every_slot_starts_after_now advancingHost shortMonday [] 10
    (some monday0) (some tuesday0) 30 _ (by decide)
  ⟨by decide, h.1, h.2⟩

end CalKiller
